import Mathlib

/-!
Verification of the CISA news crawler (src/cisa_crawler.py) against its
natural-language specification.  The Python program is shallowly embedded:
pure string manipulation is translated to executable functions over
`List Char`, the BeautifulSoup document model is abstracted to structures
recording the results of the exact queries the code performs, network I/O
and the system clock become explicit environments, and the unbounded
`while True` crawl loop becomes a fuel-indexed recursion.
-/

set_option maxHeartbeats 2000000
set_option maxRecDepth 8000

/-! ## String helpers (character-list models of the Python string operations) -/

/-- Boolean prefix test on character lists. -/
def listPrefix : List Char → List Char → Bool
  | [], _ => true
  | _ :: _, [] => false
  | a :: as, b :: bs => decide (a = b) && listPrefix as bs

/-- Boolean contiguous-substring test on character lists
(model of Python's `in` / `re`-literal containment). -/
def listInfix (pat : List Char) : List Char → Bool
  | [] => pat.isEmpty
  | l@(_ :: rest) => listPrefix pat l || listInfix pat rest

/-- Model of Python `pat in s` (substring containment). -/
def strContains (s pat : String) : Bool := listInfix pat.data s.data

/-- Model of Python `s.endswith(pat)`. -/
def strEndsWith (s pat : String) : Bool := listPrefix pat.data.reverse s.data.reverse

/-- Model of Python `len(s)` (number of characters). -/
def strLen (s : String) : Nat := s.data.length

/-- Characters stripped by Python `str.strip()` and matched by `\s` (ASCII). -/
def isPySpace (c : Char) : Bool :=
  decide (c = ' ') || decide (c = '\t') || decide (c = '\n') ||
  decide (c = '\r') || decide (c = '\x0b') || decide (c = '\x0c')

/-- Drop trailing characters satisfying `isPySpace`. -/
def dropTrailing (l : List Char) : List Char :=
  (l.reverse.dropWhile isPySpace).reverse

/-- Model of Python `str.strip()` on a character list. -/
def stripList (l : List Char) : List Char :=
  dropTrailing (l.dropWhile isPySpace)

/-- Model of Python `str.strip()`. -/
def pyStrip (s : String) : String := ⟨stripList s.data⟩

/-! ## Model of `urllib.parse.urljoin`

`urljoin` is standard-library code, external to the crawler; it is modelled
here for the cases arising for http(s) URLs: an input URL that already
carries `://` is returned unchanged, a `//netloc` reference adopts the base
scheme, a rooted path replaces the base path, and a relative path is
resolved against the directory of the base path. -/

/-- Index of the last occurrence of `c` in the list, if any. -/
def lastIdxOf? (c : Char) : List Char → Option Nat
  | [] => none
  | a :: rest =>
    match lastIdxOf? c rest with
    | some k => some (k + 1)
    | none => if a = c then some 0 else none

/-- Split an absolute URL into the scheme (before `://`) and the remainder. -/
def splitScheme : List Char → Option (List Char × List Char)
  | [] => none
  | a :: rest =>
    if listPrefix ([':', '/', '/']) (a :: rest) then some ([], rest.drop 2)
    else
      match splitScheme rest with
      | some (sch, r) => some (a :: sch, r)
      | none => none

/-- The directory part of a path: everything up to and including the last
slash, or the root when the path has no slash. -/
def dirOf (path : List Char) : List Char :=
  match lastIdxOf? '/' path with
  | some k => path.take (k + 1)
  | none => ['/']

/-- Core of the `urljoin` model, on character lists. -/
def urljoinL (b u : List Char) : List Char :=
  if u.isEmpty then b
  else if listInfix ([':', '/', '/']) u then u
  else
    match splitScheme b with
    | none => if listPrefix (['/']) u then u else dirOf b ++ u
    | some (sch, rest) =>
      let host := rest.takeWhile (fun c => decide (c ≠ '/'))
      let path := rest.dropWhile (fun c => decide (c ≠ '/'))
      if listPrefix (['/', '/']) u then sch ++ [':'] ++ u
      else if listPrefix (['/']) u then sch ++ ([':', '/', '/']) ++ host ++ u
      else sch ++ ([':', '/', '/']) ++ host ++ dirOf path ++ u

/-- Model of `urljoin(base, url)`. -/
def urljoin (base url : String) : String := ⟨urljoinL base.data url.data⟩

/-! ## Link Discoverer (`CISACrawler.extract_article_links`)

A listing page's parsed markup is abstracted to the results of the two
queries the code performs: whether `find_all(['div','article'], class_=...)`
found anything, and the sequence of anchor elements (`href` attribute,
stripped text) in document order. -/

/-- An anchor element: its `href` attribute (if present) and its
`get_text(strip=True)` result. -/
structure Anchor where
  href : Option String
  text : String
deriving Repr, DecidableEq

/-- A parsed listing page, abstracted to the queries made by the code. -/
structure ListingDoc where
  hasArticleElements : Bool
  anchors : List Anchor
deriving Repr, DecidableEq

/-- A discovered (title, url) article candidate. -/
structure Candidate where
  title : String
  url : String
deriving Repr, DecidableEq

/-- Model of `CISACrawler.is_article_url`. -/
def is_article_url (url : String) : Bool :=
  strContains url ("cisa.gov") && strContains url ("/news-events/news/") &&
    !strEndsWith url (".pdf") && !strEndsWith url (".doc") && !strEndsWith url (".docx")

/-- Tier 2 of `extract_article_links`: all anchors whose raw `href` contains
`/news-events/news/`, kept when the anchor text is longer than 10 chars. -/
def tier2Candidates (pageUrl : String) : List Anchor → List Candidate
  | [] => []
  | a :: rest =>
    match a.href with
    | none => tier2Candidates pageUrl rest
    | some url =>
      if strContains url ("/news-events/news/") then
        if url ≠ "" then
          if a.text ≠ "" ∧ 10 < strLen a.text then
            { title := a.text, url := urljoin pageUrl url } :: tier2Candidates pageUrl rest
          else tier2Candidates pageUrl rest
        else tier2Candidates pageUrl rest
      else tier2Candidates pageUrl rest

/-- Tier 3 of `extract_article_links`: the heuristic pass over all anchors
with an `href`, with its per-call `seen_urls` deduplication set. -/
def tier3Go (visited : List String) (pageUrl : String) :
    List Anchor → List String → List Candidate
  | [], _ => []
  | a :: rest, seen =>
    match a.href with
    | none => tier3Go visited pageUrl rest seen
    | some url =>
      if url = "" then tier3Go visited pageUrl rest seen
      else
        let absUrl := urljoin pageUrl url
        if is_article_url absUrl = true ∧ absUrl ∉ seen ∧ absUrl ∉ visited then
          if a.text ≠ "" ∧ 10 < strLen a.text then
            { title := a.text, url := absUrl } :: tier3Go visited pageUrl rest (absUrl :: seen)
          else tier3Go visited pageUrl rest seen
        else tier3Go visited pageUrl rest seen

/-- Model of `CISACrawler.extract_article_links` (the `visited` argument is
the crawler's `self.visited_urls`). -/
def extract_article_links (visited : List String) (htmlDoc : Option ListingDoc)
    (pageUrl : String) : List Candidate :=
  match htmlDoc with
  | none => []
  | some d =>
    let articles := if d.hasArticleElements then [] else tier2Candidates pageUrl d.anchors
    if articles.isEmpty then tier3Go visited pageUrl d.anchors [] else articles

/-! Concrete data for claim C1: a listing page on which the path-pattern
tier (tier 2) produces candidates that violate the claimed guarantees. -/

/-- A listing page with two identical anchors pointing at a PDF under the
news path: tier 2 accepts both. -/
def c1Doc : ListingDoc :=
  { hasArticleElements := false,
    anchors :=
      [ { href := some ("/news-events/news/brochure.pdf"), text := "Download The Full Brochure" },
        { href := some ("/news-events/news/brochure.pdf"), text := "Download The Full Brochure" } ] }

/-- The listing page URL used in the C1 scenario. -/
def c1PageUrl : String := "https://www.cisa.gov/news-events/news?page=1"

/-- The resolved URL of the C1 candidates. -/
def c1Url : String := "https://www.cisa.gov/news-events/news/brochure.pdf"

example :
    (extract_article_links [c1Url] (some c1Doc) c1PageUrl).map Candidate.url
      = [c1Url, c1Url] := by decide

/-! ## Content Extractor (`CISACrawler.extract_article_content`)

The three `re.sub` normalization passes are modelled as left-to-right
character scans producing exactly the strings the `re` module produces.

`re.sub(r'\n\s*\n', '\n\n', s)` finds, at each newline, the greedy
whitespace run that follows; when that run contains a further newline the
match extends to the last newline of the run and is replaced by one blank
line.  The scan below tracks this with a small state machine: state 0 is
plain copying, state 1 has seen one newline of a whitespace run (buffer
holds the non-newline whitespace seen since), state 2 has seen at least two
newlines (so the run will be collapsed; the buffer holds the whitespace
after the last newline seen, which lies outside the match). -/

/-- Pending output of the `collapseBlank` scanner at end of input. -/
def cbFlush : Nat → List Char → List Char
  | 0, _ => []
  | 1, b => '\n' :: b
  | _, b => '\n' :: '\n' :: b

/-- The `collapseBlank` scanner; see the section comment. -/
def cbGo : Nat → List Char → List Char → List Char
  | st, b, [] => cbFlush st b
  | 0, _, c :: rest =>
    if c = '\n' then cbGo 1 [] rest else c :: cbGo 0 [] rest
  | 1, b, c :: rest =>
    if c = '\n' then cbGo 2 [] rest
    else if isPySpace c then cbGo 1 (b ++ [c]) rest
    else ('\n' :: b) ++ c :: cbGo 0 [] rest
  | _ + 2, b, c :: rest =>
    if c = '\n' then cbGo 2 [] rest
    else if isPySpace c then cbGo 2 (b ++ [c]) rest
    else ('\n' :: '\n' :: b) ++ c :: cbGo 0 [] rest

/-- Model of `re.sub(r'\n\s*\n', '\n\n', s)`. -/
def collapseBlank (l : List Char) : List Char := cbGo 0 [] l

/-- Model of `re.sub(r' +', ' ', s)`: a space directly followed by another
space is dropped, so each run of spaces keeps exactly one. -/
def collapseSpaces : List Char → List Char
  | [] => []
  | [c] => [c]
  | a :: b :: rest =>
    if a = ' ' ∧ b = ' ' then collapseSpaces (b :: rest)
    else a :: collapseSpaces (b :: rest)

/-- Scanner for `re.sub(r'\n +', '\n', s)`: the flag records whether the
scan sits directly after a newline (possibly through deleted spaces). -/
def sanGo : Bool → List Char → List Char
  | _, [] => []
  | afterNl, c :: rest =>
    if c = ' ' then
      if afterNl then sanGo true rest else ' ' :: sanGo false rest
    else if c = '\n' then '\n' :: sanGo true rest
    else c :: sanGo false rest

/-- Model of `re.sub(r'\n +', '\n', s)`. -/
def stripAfterNl (l : List Char) : List Char := sanGo false l

/-- Model of Python `s.split('\n')`. -/
def splitNl : List Char → List (List Char)
  | [] => [[]]
  | c :: rest =>
    if c = '\n' then [] :: splitNl rest
    else
      match splitNl rest with
      | h :: t => (c :: h) :: t
      | [] => [[c]]

/-- Model of Python `'\n'.join(lines)`. -/
def joinLines : List (List Char) → List Char
  | [] => []
  | [l] => l
  | l :: rest => l ++ '\n' :: joinLines rest

/-- The final cleanup block of `extract_article_content`: the three `re.sub`
passes, then `[line.strip() for line in lines if len(line.strip()) > 20]`
joined with newlines. -/
def cleanContent (l : List Char) : List Char :=
  let c3 := stripAfterNl (collapseSpaces (collapseBlank l))
  joinLines (((splitNl c3).filter (fun x => decide (20 < (stripList x).length))).map stripList)

/-- String wrapper for the normalization block. -/
def clean_content (s : String) : String := ⟨cleanContent s.data⟩

/-- A parsed article page, for content extraction, abstracted to the results
of the queries made after the `decompose()` calls: the
`select_one(sel).get_text(separator='\n', strip=True)` result for each
selector, and the same for `find('body')`. -/
structure ContentDoc where
  select1Text : String → Option String
  bodyText : Option String

/-- The fixed selector cascade of `extract_article_content`. -/
def contentSelectors : List String :=
  ["main", "article", ".content", ".post-content", ".article-content",
   ".entry-content", "#content", ".main-content"]

/-- The selector loop: each found element overwrites `content`; the loop
stops early only when the text exceeds 200 characters. -/
def selLoop (d : ContentDoc) : List String → String → String
  | [], content => content
  | sel :: rest, content =>
    match d.select1Text sel with
    | none => selLoop d rest content
    | some t => if 200 < strLen t then t else selLoop d rest t

/-- Model of `CISACrawler.extract_article_content` (`none` models falsy
markup, for which the code returns `""`). -/
def extract_article_content (htmlDoc : Option ContentDoc) : String :=
  match htmlDoc with
  | none => ""
  | some d =>
    let content := selLoop d contentSelectors ""
    let content :=
      if content = "" ∨ strLen content < 200 then
        match d.bodyText with
        | some b => b
        | none => content
      else content
    if content = "" then content else clean_content content

/-- A document whose only extractable region is body text: every selector
of the cascade misses. -/
def bodyOnlyDoc (s : String) : ContentDoc :=
  { select1Text := fun _ => none, bodyText := some s }

example : clean_content "aaaaaaaaaaaaaaaaaaaa" = "" := by decide
example : clean_content "aaaaaaaaaaaaaaaaaaaaa" = "aaaaaaaaaaaaaaaaaaaaa" := by decide
example : clean_content "a\n \nb  c ddddddddddddddddddddddd" = "b c ddddddddddddddddddddddd" := by
  decide
example : extract_article_content (some (bodyOnlyDoc "short")) = "" := by decide

/-! ## Metadata Extractor (`CISACrawler.extract_article_metadata`)

A parsed article page is abstracted to the `select_one` result for each of
the ten fixed selectors the code tries, plus the page's `get_text()` string
used by the two regex fallbacks.  The regexes are modelled over ASCII. -/

/-- An element hit by `select_one`: its `get('datetime','')` attribute and
its `get_text(strip=True)`. -/
structure MElem where
  datetimeAttr : String
  text : String
deriving Repr, DecidableEq

/-- A parsed article page, for metadata extraction. -/
structure MetaDoc where
  timeElem : Option MElem
  dateClass : Option MElem
  releaseDateClass : Option MElem
  publishedDateClass : Option MElem
  datetimeSel : Option MElem
  authorClass : Option MElem
  bylineClass : Option MElem
  writerClass : Option MElem
  citeElem : Option MElem
  authorNameClass : Option MElem
  fullText : String
deriving Repr, DecidableEq

/-- The date selector loop: prefer the `datetime` attribute, else the text;
stop at the first selector producing a non-empty value. -/
def dateCascade : List (Option MElem) → String
  | [] => ""
  | none :: rest => dateCascade rest
  | some e :: rest =>
    let rd := if e.datetimeAttr = "" then e.text else e.datetimeAttr
    if rd = "" then dateCascade rest else rd

/-- The author selector loop: first selector with non-empty text wins. -/
def authorCascade : List (Option MElem) → String
  | [] => ""
  | none :: rest => authorCascade rest
  | some e :: rest => if e.text = "" then authorCascade rest else e.text

/-- ASCII letter test (model of the regex class `[A-Za-z]`). -/
def isAsciiLetter (c : Char) : Bool :=
  (decide ('A' ≤ c) && decide (c ≤ 'Z')) || (decide ('a' ≤ c) && decide (c ≤ 'z'))

/-- ASCII digit test (model of the regex class `\d`). -/
def isDigitB (c : Char) : Bool := decide ('0' ≤ c) && decide (c ≤ '9')

/-- Attempt `Released\s*([A-Za-z]+\s+\d{1,2},\s+\d{4})` at the head of the
list; return the group-1 characters on success.  The greedy quantifiers
meet disjoint character classes, except `\d{1,2}` before the comma, whose
one-step backtracking is spelled out. -/
def matchReleasedAt (l : List Char) : Option (List Char) :=
  if listPrefix ("Released".data) l then
    let r1 := l.drop 8
    let r2 := r1.dropWhile isPySpace
    let letters := r2.takeWhile isAsciiLetter
    if letters.isEmpty then none
    else
      let r3 := r2.drop letters.length
      let sp := r3.takeWhile isPySpace
      if sp.isEmpty then none
      else
        match r3.drop sp.length with
        | d1 :: d2 :: rest2 =>
          if isDigitB d1 then
            if isDigitB d2 then
              match rest2 with
              | ',' :: rest3 =>
                match matchReleasedYear rest3 with
                | some tail => some (letters ++ sp ++ [d1, d2, ','] ++ tail)
                | none => none
              | _ => none
            else if d2 = ',' then
              match matchReleasedYear rest2 with
              | some tail => some (letters ++ sp ++ [d1, ','] ++ tail)
              | none => none
            else none
          else none
        | [d1] =>
          if isDigitB d1 then none else none
        | [] => none
  else none
where
  /-- The `\s+\d{4}` tail after the comma. -/
  matchReleasedYear (rest : List Char) : Option (List Char) :=
    let sp2 := rest.takeWhile isPySpace
    if sp2.isEmpty then none
    else
      match rest.drop sp2.length with
      | y1 :: y2 :: y3 :: y4 :: _ =>
        if isDigitB y1 && isDigitB y2 && isDigitB y3 && isDigitB y4 then
          some (sp2 ++ [y1, y2, y3, y4])
        else none
      | _ => none

/-- Leftmost search for the `Released ...` pattern (model of `re.search`). -/
def searchReleased : List Char → Option (List Char)
  | [] => none
  | l@(_ :: rest) =>
    match matchReleasedAt l with
    | some g => some g
    | none => searchReleased rest

/-- Non-comma test (the regex class `[^,]`). -/
def nonComma (c : Char) : Bool := decide (c ≠ ',')

/-- The `(?:,\s*[^,]+)*` iterations of the author regex: each iteration
consumes a comma and the following (nonempty) run up to the next comma.
The fuel argument, instantiated with the list length, only serves
termination; every iteration consumes at least two characters. -/
def byIters : Nat → List Char → List Char
  | 0, _ => []
  | fuel + 1, l =>
    match l with
    | ',' :: rest =>
      let seg := rest.takeWhile nonComma
      if seg.isEmpty then []
      else (',' :: seg) ++ byIters fuel (rest.drop seg.length)
    | _ => []

/-- Attempt `By\s+([^,]+(?:,\s*[^,]+)*)` at the head of the list; return
group 1.  When the whitespace run is followed directly by a comma or the
end, `\s+` backtracks by one character so that `[^,]+` can consume it. -/
def matchByAt (l : List Char) : Option (List Char) :=
  if listPrefix ("By".data) l then
    let r1 := l.drop 2
    let w := r1.takeWhile isPySpace
    if w.isEmpty then none
    else
      let r2 := r1.drop w.length
      let seg0 := r2.takeWhile nonComma
      if seg0.isEmpty then
        if 2 ≤ w.length then some (w.drop (w.length - 1) ++ byIters r2.length r2)
        else none
      else some (seg0 ++ byIters (r2.drop seg0.length).length (r2.drop seg0.length))
  else none

/-- Leftmost search for the `By ...` author pattern. -/
def searchBy : List Char → Option (List Char)
  | [] => none
  | l@(_ :: rest) =>
    match matchByAt l with
    | some g => some g
    | none => searchBy rest

/-- Result of `extract_article_metadata`: the code returns the pair
`({}, {})` for falsy markup and a two-key dict otherwise. -/
inductive MetaResult where
  | emptyPair : MetaResult
  | dict : String → String → MetaResult
deriving Repr, DecidableEq

/-- Discriminator: did the call return the dictionary shape? -/
def MetaResult.isDict : MetaResult → Bool
  | .dict _ _ => true
  | .emptyPair => false

/-- The release-date and author computation for non-empty markup. -/
def metaFields (d : MetaDoc) : String × String :=
  let rd := dateCascade
    [d.timeElem, d.dateClass, d.releaseDateClass, d.publishedDateClass, d.datetimeSel]
  let rd :=
    if rd = "" then
      match searchReleased d.fullText.data with
      | some g => (⟨g⟩ : String)
      | none => rd
    else rd
  let au := authorCascade
    [d.authorClass, d.bylineClass, d.writerClass, d.citeElem, d.authorNameClass]
  let au :=
    if au = "" then
      match searchBy d.fullText.data with
      | some g => pyStrip ⟨g⟩
      | none => au
    else au
  (rd, au)

/-- Model of `CISACrawler.extract_article_metadata`; `none` models falsy
markup, for which the code returns `({}, {})` — a tuple, not a dict. -/
def extract_article_metadata (htmlDoc : Option MetaDoc) : MetaResult :=
  match htmlDoc with
  | none => .emptyPair
  | some d => .dict (metaFields d).1 (metaFields d).2

/-! ## The system clock and `datetime.isoformat()`

`datetime.now()` is external; runs are parameterized by a clock giving the
datetime observed at each successive `datetime.now()` call.  `isoformat`
is modelled for field values within `datetime`'s documented ranges
(year at most 9999, and so on), which `PyDateTime.Valid` captures. -/

/-- A Python `datetime` value. -/
structure PyDateTime where
  year : Nat
  month : Nat
  day : Nat
  hour : Nat
  minute : Nat
  second : Nat
  microsecond : Nat
deriving Repr, DecidableEq

/-- The field ranges `datetime` guarantees for values of `datetime.now()`. -/
abbrev PyDateTime.Valid (d : PyDateTime) : Prop :=
  d.year ≤ 9999 ∧ 1 ≤ d.month ∧ d.month ≤ 12 ∧ 1 ≤ d.day ∧ d.day ≤ 31 ∧
    d.hour ≤ 23 ∧ d.minute ≤ 59 ∧ d.second ≤ 59 ∧ d.microsecond ≤ 999999

/-- The decimal digit character for `n % 10`. -/
def digitChar (n : Nat) : Char :=
  match n % 10 with
  | 0 => '0' | 1 => '1' | 2 => '2' | 3 => '3' | 4 => '4'
  | 5 => '5' | 6 => '6' | 7 => '7' | 8 => '8' | _ => '9'

/-- Two-digit zero-padded decimal (for values below 100). -/
def pad2 (n : Nat) : List Char := [digitChar (n / 10), digitChar n]

/-- Four-digit zero-padded decimal (for values below 10000). -/
def pad4 (n : Nat) : List Char :=
  [digitChar (n / 1000), digitChar (n / 100), digitChar (n / 10), digitChar n]

/-- Six-digit zero-padded decimal (for values below 1000000). -/
def pad6 (n : Nat) : List Char :=
  [digitChar (n / 100000), digitChar (n / 10000), digitChar (n / 1000),
   digitChar (n / 100), digitChar (n / 10), digitChar n]

/-- Model of `datetime.isoformat()`: `YYYY-MM-DDTHH:MM:SS`, with the
`.ffffff` microsecond suffix exactly when the microsecond is non-zero. -/
def pyIsoformat (d : PyDateTime) : String :=
  ⟨pad4 d.year ++ '-' :: pad2 d.month ++ '-' :: pad2 d.day ++ 'T' :: pad2 d.hour ++
    ':' :: pad2 d.minute ++ ':' :: pad2 d.second ++
    (if d.microsecond = 0 then [] else '.' :: pad6 d.microsecond)⟩

/-- Numeric value of a digit character. -/
def digitVal (c : Char) : Nat := c.toNat - 48

/-- One token of a timestamp shape: a digit position or a literal. -/
inductive IsoTok where
  | dig : IsoTok
  | lit : Char → IsoTok
deriving Repr, DecidableEq

/-- Match a token shape against a character list, exactly. -/
def matchPattern : List IsoTok → List Char → Bool
  | [], [] => true
  | IsoTok.dig :: ts, c :: cs => isDigitB c && matchPattern ts cs
  | IsoTok.lit ch :: ts, c :: cs => decide (c = ch) && matchPattern ts cs
  | _, _ => false

/-- The `YYYY-MM-DDTHH:MM:SS` shape. -/
def isoDateTimePattern : List IsoTok :=
  [.dig, .dig, .dig, .dig, .lit '-', .dig, .dig, .lit '-', .dig, .dig, .lit 'T',
   .dig, .dig, .lit ':', .dig, .dig, .lit ':', .dig, .dig]

/-- The `.ffffff` microsecond suffix shape. -/
def isoFracPattern : List IsoTok :=
  [.lit '.', .dig, .dig, .dig, .dig, .dig, .dig]

/-- The two-digit numeric value found at position `i`. -/
def sliceVal (l : List Char) (i : Nat) : Nat :=
  10 * digitVal (l.getD i '0') + digitVal (l.getD (i + 1) '0')

/-- ISO-8601 validity of a timestamp character list, as produced by
`isoformat`: date, `T`, time, optional 6-digit fraction; in-range month,
day, hour, minute and second fields. -/
def iso8601Core (l : List Char) : Bool :=
  matchPattern isoDateTimePattern (l.take 19) &&
  (decide (l.length = 19) ||
    (decide (l.length = 26) && matchPattern isoFracPattern (l.drop 19))) &&
  decide (1 ≤ sliceVal l 5) && decide (sliceVal l 5 ≤ 12) &&
  decide (1 ≤ sliceVal l 8) && decide (sliceVal l 8 ≤ 31) &&
  decide (sliceVal l 11 ≤ 23) && decide (sliceVal l 14 ≤ 59) &&
  decide (sliceVal l 17 ≤ 59)

/-- ISO-8601 validity of a string. -/
def isISO8601 (s : String) : Bool := iso8601Core s.data

/-! ## Crawl Orchestrator (`crawl_article`, `crawl_all_pages`, `run`, `main`)

The network is an environment mapping listing page numbers and article URLs
to parsed documents (`none` is a failed or empty fetch, after retries).
The run state carries the crawler's `self.articles` and `self.visited_urls`
together with ghost logs of the fetches performed and of the number of
candidates each listing page yielded, and the clock position. -/

/-- A fetched article page: the inputs of the two extractors. -/
structure ArticleDoc where
  meta : MetaDoc
  content : ContentDoc

/-- The network environment. -/
structure CrawlEnv where
  listing : Nat → Option ListingDoc
  article : String → Option ArticleDoc

/-- The dictionary built for one crawled article. -/
structure ArticleData where
  title : String
  url : String
  author : String
  release_date : String
  content : String
  crawl_date : String
deriving Repr, DecidableEq

/-- Insertion-ordered keys of the article dictionary, as serialized. -/
def ArticleData.toFields (a : ArticleData) : List (String × String) :=
  [("title", a.title), ("url", a.url), ("author", a.author),
   ("release_date", a.release_date), ("content", a.content),
   ("crawl_date", a.crawl_date)]

/-- The orchestrator state: `self.articles`, `self.visited_urls`, ghost
logs of article fetches, page fetches and per-page candidate counts, and
the number of `datetime.now()` calls made so far. -/
structure RunState where
  articles : List ArticleData
  visited : List String
  articleFetches : List String
  pageFetches : List Nat
  discoveries : List Nat
  tick : Nat
deriving Repr, DecidableEq

/-- The initial orchestrator state. -/
def initState : RunState :=
  { articles := [], visited := [], articleFetches := [], pageFetches := [],
    discoveries := [], tick := 0 }

/-- Model of `CISACrawler.crawl_article`: skip visited URLs, mark the URL
visited before fetching, then fetch, extract and gate the content. -/
def crawl_article (env : CrawlEnv) (clock : Nat → PyDateTime) (info : Candidate)
    (st : RunState) : Option ArticleData × RunState :=
  if st.visited.contains info.url then (none, st)
  else
    let st1 : RunState := { st with visited := info.url :: st.visited }
    let st2 : RunState := { st1 with articleFetches := st1.articleFetches ++ [info.url] }
    match env.article info.url with
    | none => (none, st2)
    | some doc =>
      let md := metaFields doc.meta
      let content := extract_article_content (some doc.content)
      if content = "" ∨ strLen content < 100 then (none, st2)
      else
        (some { title := info.title, url := info.url, author := md.2,
                release_date := md.1, content := content,
                crawl_date := pyIsoformat (clock st2.tick) },
         { st2 with tick := st2.tick + 1 })

/-- Truthiness-guarded article-count check:
`if max_articles and len(self.articles) >= max_articles`. -/
def limitHit (maxArticles : Option Int) (st : RunState) : Bool :=
  match maxArticles with
  | none => false
  | some v => !decide (v = 0) && decide (v ≤ (st.articles.length : Int))

/-- Truthiness-guarded page-count check:
`if max_pages and page_num > max_pages`. -/
def pageLimitHit (maxPages : Option Int) (pageNum : Nat) : Bool :=
  match maxPages with
  | none => false
  | some v => !decide (v = 0) && decide (v < (pageNum : Int))

/-- The per-page article loop of `crawl_all_pages`. -/
def articleLoop (env : CrawlEnv) (clock : Nat → PyDateTime) (maxArticles : Option Int) :
    List Candidate → RunState → RunState
  | [], st => st
  | info :: rest, st =>
    if limitHit maxArticles st then st
    else
      match crawl_article env clock info st with
      | (some a, st') => articleLoop env clock maxArticles rest
          { st' with articles := st'.articles ++ [a] }
      | (none, st') => articleLoop env clock maxArticles rest st'

/-- The crawler's fixed base URL. -/
def base_url : String := "https://www.cisa.gov/news-events/news"

/-- The listing-page URL for a page number. -/
def pageUrlOf (n : Nat) : String := base_url ++ "?page=" ++ toString n

/-- The `while True` pagination loop of `crawl_all_pages`, as a
fuel-indexed recursion (the fuel only cuts off genuinely infinite runs). -/
def crawlLoop (env : CrawlEnv) (clock : Nat → PyDateTime)
    (maxArticles maxPages : Option Int) : Nat → Nat → RunState → RunState
  | 0, _, st => st
  | fuel + 1, pageNum, st =>
    if limitHit maxArticles st then st
    else if pageLimitHit maxPages pageNum then st
    else
      let st1 : RunState := { st with pageFetches := st.pageFetches ++ [pageNum] }
      match env.listing pageNum with
      | none => st1
      | some doc =>
        let links := extract_article_links st1.visited (some doc) (pageUrlOf pageNum)
        let st2 : RunState := { st1 with discoveries := st1.discoveries ++ [links.length] }
        if links.isEmpty then st2
        else
          let st3 := articleLoop env clock maxArticles links st2
          crawlLoop env clock maxArticles maxPages fuel (pageNum + 1) st3

/-- Model of `CISACrawler.crawl_all_pages` from its initial state. -/
def crawlRun (env : CrawlEnv) (clock : Nat → PyDateTime)
    (maxArticles maxPages : Option Int) (fuel : Nat) : RunState :=
  crawlLoop env clock maxArticles maxPages fuel 1 initState

/-- The persisted JSON document of `save_to_json`. -/
structure CrawlReport where
  total_articles : Nat
  crawl_date : String
  source_url : String
  articles : List ArticleData
deriving Repr, DecidableEq

/-- Build the report dictionary passed to `json.dump`. -/
def buildReport (clock : Nat → PyDateTime) (st : RunState) : CrawlReport :=
  { total_articles := st.articles.length,
    crawl_date := pyIsoformat (clock st.tick),
    source_url := base_url,
    articles := st.articles }

/-- Outcome of `save_to_json`: the broad `except` catches any write error
and only logs it. -/
inductive SaveOutcome where
  | ok : SaveOutcome
  | errLogged : String → SaveOutcome
deriving Repr, DecidableEq

/-- Model of `CISACrawler.save_to_json`, parameterized by the file sink. -/
def save_to_json (sink : CrawlReport → Except String Unit) (clock : Nat → PyDateTime)
    (st : RunState) : SaveOutcome :=
  match sink (buildReport clock st) with
  | .ok _ => .ok
  | .error e => .errLogged e

/-- Model of `CISACrawler.run`: crawl, then persist. -/
def runCrawler (env : CrawlEnv) (clock : Nat → PyDateTime)
    (sink : CrawlReport → Except String Unit) (maxArticles maxPages : Option Int)
    (fuel : Nat) : RunState × SaveOutcome :=
  let st := crawlRun env clock maxArticles maxPages fuel
  (st, save_to_json sink clock st)

/-! ## CLI surface (`main`) -/

/-- Model of Python `int(s)`: optional surrounding whitespace, optional
sign, then digits with optional single underscores between them. -/
def pyInt (s : String) : Option Int :=
  match stripList s.data with
  | '+' :: rest => (pyIntDigits rest 0).map Int.ofNat
  | '-' :: rest => (pyIntDigits rest 0).map (fun n => -(n : Int))
  | rest => (pyIntDigits rest 0).map Int.ofNat
where
  /-- Digit-run parser accepting single interior underscores. -/
  pyIntDigits : List Char → Nat → Option Nat
    | [], _ => none
    | [c], acc => if isDigitB c then some (acc * 10 + digitVal c) else none
    | c :: '_' :: d :: rest, acc =>
      if isDigitB c && isDigitB d then pyIntDigits (d :: rest) (acc * 10 + digitVal c)
      else none
    | c :: rest, acc =>
      if isDigitB c then pyIntDigits rest (acc * 10 + digitVal c) else none

/-- Model of the argument handling in `main`: `sys.argv.index(flag)` after
an `in` check, a bounds check on the following position, and `int()` whose
`ValueError` leaves the variable `None`. -/
def parseCliFlag (argv : List String) (flag : String) : Option Int :=
  if argv.contains flag then
    match argv.findIdx? (fun s => s = flag) with
    | some i => if i + 1 < argv.length then pyInt (argv.getD (i + 1) "") else none
    | none => none
  else none

/-- Model of the CLI parsing in `main` (`argv` includes the program name). -/
def parseCliArgs (argv : List String) : Option Int × Option Int :=
  if 1 < argv.length then (parseCliFlag argv "--max", parseCliFlag argv "--pages")
  else (none, none)

/-- Result of running `main`: the process exit status, the final crawler
state and the persistence outcome. -/
structure MainResult where
  exitCode : Nat
  finalState : RunState
  outcome : SaveOutcome
deriving Repr, DecidableEq

/-- Model of `main`: parse flags, run the crawler, persist.  `main` never
raises (fetch errors are retried and swallowed, `int()` errors are caught,
the save `except` block catches write errors) and never calls `sys.exit`,
so the process exit status of a completed run is 0. -/
def pyMain (argv : List String) (env : CrawlEnv) (clock : Nat → PyDateTime)
    (sink : CrawlReport → Except String Unit) (fuel : Nat) : MainResult :=
  let args := parseCliArgs argv
  let r := runCrawler env clock sink args.1 args.2 fuel
  { exitCode := 0, finalState := r.1, outcome := r.2 }

/-! ## Basic lemmas about the string helpers -/

theorem listPrefix_iff (p : List Char) : ∀ l, listPrefix p l = true ↔ p <+: l := by
  induction p with
  | nil => intro l; simp [listPrefix]
  | cons a as ih =>
    intro l
    cases l with
    | nil => simp [listPrefix]
    | cons b bs =>
      simp only [listPrefix, Bool.and_eq_true, decide_eq_true_eq, ih,
        List.cons_prefix_cons]

theorem listInfix_iff (p : List Char) : ∀ l, listInfix p l = true ↔ p <:+: l := by
  intro l
  induction l with
  | nil => simp [listInfix, List.isEmpty_iff]
  | cons b bs ih =>
    simp only [listInfix, Bool.or_eq_true, listPrefix_iff, ih, List.infix_cons_iff]

theorem splitScheme_isSome (b : List Char)
    (h : listInfix ([':', '/', '/']) b = true) : (splitScheme b).isSome = true := by
  induction b with
  | nil => simp [listInfix, List.isEmpty] at h
  | cons a rest ih =>
    simp only [listInfix, Bool.or_eq_true] at h
    simp only [splitScheme]
    rcases h with h | h
    · simp [h]
    · by_cases hp : listPrefix ([':', '/', '/']) (a :: rest) = true
      · simp [hp]
      · simp only [hp]
        have := ih h
        cases hs : splitScheme rest with
        | none => rw [hs] at this; simp at this
        | some v => simp [hs]

theorem urljoin_abs (base u : String) (h : strContains base ("://") = true) :
    strContains (urljoin base u) ("://") = true := by
  have hbase : listInfix ([':', '/', '/']) base.data = true := h
  show listInfix ([':', '/', '/']) (urljoinL base.data u.data) = true
  unfold urljoinL
  by_cases h1 : u.data.isEmpty
  · simp [h1, hbase]
  · simp only [h1, if_false]
    by_cases h2 : listInfix ([':', '/', '/']) u.data = true
    · simp [h2]
    · simp only [h2, if_false]
      cases hs : splitScheme base.data with
      | none =>
        have := splitScheme_isSome base.data hbase
        rw [hs] at this; simp at this
      | some v =>
        obtain ⟨sch, rest⟩ := v
        simp only
        by_cases h3 : listPrefix (['/', '/']) u.data = true
        · simp only [h3, if_true]
          obtain ⟨t, ht⟩ : ['/', '/'] <+: u.data := (listPrefix_iff _ _).mp h3
          rw [listInfix_iff, ← ht]
          exact ⟨sch, t, by simp⟩
        · simp only [h3, if_false]
          by_cases h4 : listPrefix (['/']) u.data = true
          · simp only [h4, if_true]
            rw [listInfix_iff]
            exact ⟨sch, List.takeWhile (fun c => decide (c ≠ '/')) rest ++ u.data, by simp⟩
          · simp only [h4, if_false]
            rw [listInfix_iff]
            exact ⟨sch, List.takeWhile (fun c => decide (c ≠ '/')) rest ++
              (dirOf (List.dropWhile (fun c => decide (c ≠ '/')) rest) ++ u.data), by simp⟩

/-! ## Claim C1: properties of the discovered candidates -/

theorem tier3Go_props (visited : List String) (pageUrl : String)
    (habs : strContains pageUrl ("://") = true) :
    ∀ (anchors : List Anchor) (seen : List String),
      (∀ c ∈ tier3Go visited pageUrl anchors seen,
        is_article_url c.url = true ∧ strContains c.url ("://") = true ∧
          c.url ∉ visited ∧ c.url ∉ seen ∧ 10 < strLen c.title) ∧
      ((tier3Go visited pageUrl anchors seen).map Candidate.url).Nodup := by
  intro anchors
  induction anchors with
  | nil => intro seen; simp [tier3Go]
  | cons a rest ih =>
    intro seen
    cases ha : a.href with
    | none =>
      simpa only [tier3Go, ha] using ih seen
    | some url =>
      by_cases hu : url = ""
      · have hstep : tier3Go visited pageUrl (a :: rest) seen =
            tier3Go visited pageUrl rest seen := by
          simp only [tier3Go, ha]
          rw [if_pos hu]
        rw [hstep]; exact ih seen
      · by_cases hacc : is_article_url (urljoin pageUrl url) = true ∧
            urljoin pageUrl url ∉ seen ∧ urljoin pageUrl url ∉ visited
        · by_cases htitle : a.text ≠ "" ∧ 10 < strLen a.text
          · have hstep : tier3Go visited pageUrl (a :: rest) seen =
                { title := a.text, url := urljoin pageUrl url } ::
                  tier3Go visited pageUrl rest (urljoin pageUrl url :: seen) := by
              simp only [tier3Go, ha]
              rw [if_neg hu, if_pos hacc, if_pos htitle]
            have ihr := ih (urljoin pageUrl url :: seen)
            rw [hstep]
            constructor
            · intro c hc
              rcases List.mem_cons.mp hc with hc | hc
              · subst hc
                exact ⟨hacc.1, urljoin_abs pageUrl url habs, hacc.2.2, hacc.2.1,
                  htitle.2⟩
              · have := ihr.1 c hc
                exact ⟨this.1, this.2.1, this.2.2.1,
                  fun hmem => this.2.2.2.1 (List.mem_cons_of_mem _ hmem),
                  this.2.2.2.2⟩
            · simp only [List.map_cons, List.nodup_cons]
              refine ⟨?_, ihr.2⟩
              intro hmem
              obtain ⟨c, hc, hcu⟩ := List.mem_map.mp hmem
              have := (ihr.1 c hc).2.2.2.1
              rw [hcu] at this
              exact this (List.mem_cons_self _ _)
          · have hstep : tier3Go visited pageUrl (a :: rest) seen =
                tier3Go visited pageUrl rest seen := by
              simp only [tier3Go, ha]
              rw [if_neg hu, if_pos hacc, if_neg htitle]
            rw [hstep]; exact ih seen
        · have hstep : tier3Go visited pageUrl (a :: rest) seen =
              tier3Go visited pageUrl rest seen := by
            simp only [tier3Go, ha]
            rw [if_neg hu, if_neg hacc]
          rw [hstep]; exact ih seen

/-- C1 (counterexample): on a listing page whose path-pattern tier fires,
`extract_article_links` returns two candidates with the same resolved URL,
that URL ends in `.pdf` and is already in the visited set — so the claimed
guarantees fail for tier-2 candidates. -/
theorem C1_counterexample :
    (extract_article_links [c1Url] (some c1Doc) c1PageUrl).map Candidate.url
        = [c1Url, c1Url] ∧
      strEndsWith c1Url (".pdf") = true ∧
      ¬ ((extract_article_links [c1Url] (some c1Doc) c1PageUrl).map Candidate.url).Nodup ∧
      c1Url ∈ [c1Url] := by
  refine ⟨by decide, by decide, ?_, by decide⟩
  intro h
  rw [show (extract_article_links [c1Url] (some c1Doc) c1PageUrl).map Candidate.url
      = [c1Url, c1Url] from by decide] at h
  simp at h

/-- C1 (amended): when the structural tier matched containers or the
path-pattern tier produced nothing — the only situations in which the
heuristic tier runs — every candidate returned by `extract_article_links`
has an absolute URL on the cisa.gov domain under the news path, no
document-download extension, is not already visited, has a title longer
than 10 characters, and no two returned candidates share a resolved URL.
Tier-2 candidates are only guaranteed a title longer than 10 characters
and a URL resolved from an href containing the news path segment. -/
theorem C1_heuristic_tier_guarantees (visited : List String) (d : ListingDoc)
    (pageUrl : String)
    (h2 : d.hasArticleElements = true ∨ tier2Candidates pageUrl d.anchors = [])
    (habs : strContains pageUrl ("://") = true) :
    (∀ c ∈ extract_article_links visited (some d) pageUrl,
      is_article_url c.url = true ∧ strContains c.url ("://") = true ∧
        c.url ∉ visited ∧ 10 < strLen c.title) ∧
    ((extract_article_links visited (some d) pageUrl).map Candidate.url).Nodup := by
  have hextract : extract_article_links visited (some d) pageUrl =
      tier3Go visited pageUrl d.anchors [] := by
    unfold extract_article_links
    rcases h2 with h2 | h2
    · simp [h2]
    · simp [h2]
  rw [hextract]
  have := tier3Go_props visited pageUrl habs d.anchors []
  exact ⟨fun c hc => ⟨(this.1 c hc).1, (this.1 c hc).2.1, (this.1 c hc).2.2.1,
    (this.1 c hc).2.2.2.2⟩, this.2⟩

/-- A listing page whose single anchor is a relative href that does not
contain the news path segment, so tier 2 yields nothing and the heuristic
tier resolves it. -/
def c1wDoc : ListingDoc :=
  { hasArticleElements := false,
    anchors := [ { href := some ("abc-defghijk"), text := "A Sufficiently Long Title" } ] }

/-- The listing URL for the C1 witness scenario. -/
def c1wPage : String := "https://www.cisa.gov/news-events/news/"

/-- Witness for the amended C1: the heuristic tier's guarantee, instantiated
on a concrete page. -/
theorem C1_heuristic_tier_guarantees_witness :
    is_article_url "https://www.cisa.gov/news-events/news/abc-defghijk" = true ∧
      strContains "https://www.cisa.gov/news-events/news/abc-defghijk" ("://") = true ∧
      "https://www.cisa.gov/news-events/news/abc-defghijk" ∉ ([] : List String) ∧
      10 < strLen "A Sufficiently Long Title" :=
  (C1_heuristic_tier_guarantees [] c1wDoc c1wPage (Or.inr (by decide)) (by decide)).1
    { title := "A Sufficiently Long Title",
      url := "https://www.cisa.gov/news-events/news/abc-defghijk" } (by decide)

/-! ## Claim C7: metadata extraction results -/

/-- C7 (counterexample): for empty/None markup the code returns the tuple
`({}, {})`, not a mapping carrying `release_date` and `author` keys. -/
theorem C7_counterexample :
    extract_article_metadata none = MetaResult.emptyPair ∧
      MetaResult.isDict (extract_article_metadata none) = false :=
  ⟨rfl, rfl⟩

/-- C7 (amended): for any non-empty markup the extractor never fails and
returns the two-key dictionary, whose fields default to the empty string
when no selector matches and the regex fallbacks find nothing; for empty
or None markup it instead returns a pair of two empty dicts. -/
theorem C7_metadata_contract (d : MetaDoc) :
    (∃ rd au, extract_article_metadata (some d) = MetaResult.dict rd au) ∧
    (d.timeElem = none → d.dateClass = none → d.releaseDateClass = none →
     d.publishedDateClass = none → d.datetimeSel = none →
     searchReleased d.fullText.data = none →
     d.authorClass = none → d.bylineClass = none → d.writerClass = none →
     d.citeElem = none → d.authorNameClass = none →
     searchBy d.fullText.data = none →
     extract_article_metadata (some d) = MetaResult.dict "" "") := by
  constructor
  · exact ⟨_, _, rfl⟩
  · intro h1 h2 h3 h4 h5 h6 h7 h8 h9 h10 h11 h12
    simp [extract_article_metadata, metaFields, h1, h2, h3, h4, h5, h6, h7, h8, h9,
      h10, h11, h12, dateCascade, authorCascade]

/-- A metadata document with no selector hits and empty page text. -/
def c7wDoc : MetaDoc :=
  { timeElem := none, dateClass := none, releaseDateClass := none,
    publishedDateClass := none, datetimeSel := none, authorClass := none,
    bylineClass := none, writerClass := none, citeElem := none,
    authorNameClass := none, fullText := "" }

/-- Witness for the amended C7 at a concrete document. -/
theorem C7_metadata_contract_witness :
    extract_article_metadata (some c7wDoc) = MetaResult.dict "" "" :=
  (C7_metadata_contract c7wDoc).2 rfl rfl rfl rfl rfl (by decide) rfl rfl rfl rfl rfl
    (by decide)

/-! ## Claim C10: the CLI surface -/

/-- The token following the first occurrence of `flag` in `argv`, if any. -/
def tokenAfter (argv : List String) (flag : String) : Option String :=
  match argv.findIdx? (fun s => s = flag) with
  | none => none
  | some i => argv[i + 1]?

/-- C10: when the token following `--max` (resp. `--pages`) is absent or
fails to parse as an integer, the flag is silently ignored: the limit stays
`None`, nothing is raised, and the process exit status is 0. -/
theorem C10_cli_silent_fallback (argv : List String) (env : CrawlEnv)
    (clock : Nat → PyDateTime) (sink : CrawlReport → Except String Unit) (fuel : Nat)
    (hmax : tokenAfter argv "--max" = none ∨
      ∃ t, tokenAfter argv "--max" = some t ∧ pyInt t = none)
    (hpages : tokenAfter argv "--pages" = none ∨
      ∃ t, tokenAfter argv "--pages" = some t ∧ pyInt t = none) :
    parseCliArgs argv = (none, none) ∧
      (pyMain argv env clock sink fuel).exitCode = 0 := by
  have key : ∀ flag : String,
      (tokenAfter argv flag = none ∨ ∃ t, tokenAfter argv flag = some t ∧ pyInt t = none) →
      parseCliFlag argv flag = none := by
    intro flag h
    unfold parseCliFlag
    by_cases hc : argv.contains flag
    · simp only [hc, if_true]
      cases hidx : argv.findIdx? (fun s => s = flag) with
      | none => simp
      | some i =>
        rcases h with h | ⟨t, ht, hp⟩
        · have h2 : argv[i + 1]? = none := by simpa [tokenAfter, hidx] using h
          have hge : argv.length ≤ i + 1 := by
            by_contra hlt
            push_neg at hlt
            rw [List.getElem?_eq_getElem hlt] at h2
            simp at h2
          simp only [Nat.not_lt_of_le hge, if_false]
        · have ht2 : argv[i + 1]? = some t := by simpa [tokenAfter, hidx] using ht
          have hlt : i + 1 < argv.length := by
            by_contra hge
            push_neg at hge
            rw [List.getElem?_eq_none hge] at ht2
            simp at ht2
          have hgd : argv.getD (i + 1) "" = t := by
            rw [List.getD_eq_getElem?_getD, ht2]
            rfl
          simp only [hlt, if_true, hgd, hp]
    · rw [if_neg hc]
  have hm := key _ hmax
  have hp := key _ hpages
  constructor
  · unfold parseCliArgs
    by_cases hlen : 1 < argv.length
    · simp [hlen, hm, hp]
    · simp [hlen]
  · rfl

/-- A crawl environment in which every fetch fails. -/
def wEnvEmpty : CrawlEnv := { listing := fun _ => none, article := fun _ => none }

/-- A fixed valid clock value. -/
def wClock : Nat → PyDateTime := fun _ => ⟨2025, 4, 1, 12, 30, 5, 123456⟩

/-- A sink that always succeeds. -/
def wSinkOk : CrawlReport → Except String Unit := fun _ => Except.ok ()

/-- Witness for C10: `--max` followed by a non-integer and `--pages` at the
end of the argument vector both leave the limits `None` and exit 0. -/
theorem C10_cli_silent_fallback_witness :
    parseCliArgs ["cisa_crawler.py", "--max", "five", "--pages"] = (none, none) ∧
      (pyMain ["cisa_crawler.py", "--max", "five", "--pages"]
        wEnvEmpty wClock wSinkOk 3).exitCode = 0 :=
  C10_cli_silent_fallback _ wEnvEmpty wClock wSinkOk 3
    (Or.inr ⟨"five", by decide, by decide⟩) (Or.inl (by decide))

/-! ## Claim C3: the VisitedSet discipline -/

/-- The invariant tying the ghost fetch log to the visited set: every URL
fetched as an article is recorded in the visited set, and no URL was
fetched twice. -/
def NoRefetch (st : RunState) : Prop :=
  st.articleFetches.Nodup ∧ ∀ u ∈ st.articleFetches, u ∈ st.visited

theorem crawl_article_fields (env : CrawlEnv) (clock : Nat → PyDateTime)
    (info : Candidate) (st : RunState) :
    (crawl_article env clock info st).2.visited =
      (if info.url ∈ st.visited then st.visited else info.url :: st.visited) ∧
    (crawl_article env clock info st).2.articleFetches =
      (if info.url ∈ st.visited then st.articleFetches
        else st.articleFetches ++ [info.url]) := by
  unfold crawl_article
  by_cases hc : info.url ∈ st.visited
  · simp [hc]
  · cases env.article info.url with
    | none => simp [hc]
    | some doc =>
      by_cases hgate : extract_article_content (some doc.content) = "" ∨
          strLen (extract_article_content (some doc.content)) < 100
      · simp [hc, hgate]
      · simp [hc, hgate]

theorem crawl_article_NoRefetch (env : CrawlEnv) (clock : Nat → PyDateTime)
    (info : Candidate) (st : RunState) (h : NoRefetch st) :
    NoRefetch (crawl_article env clock info st).2 := by
  obtain ⟨hvis, hfet⟩ := crawl_article_fields env clock info st
  by_cases hc : info.url ∈ st.visited
  · rw [if_pos hc] at hvis hfet
    exact ⟨hfet ▸ h.1, fun u hu => hvis ▸ h.2 u (hfet ▸ hu)⟩
  · rw [if_neg hc] at hvis hfet
    constructor
    · rw [hfet]
      refine List.Nodup.append h.1 (by simp) ?_
      intro u hu hmem
      simp only [List.mem_singleton] at hmem
      subst hmem
      exact hc (h.2 _ hu)
    · intro u hu
      rw [hfet] at hu
      rw [hvis]
      rcases List.mem_append.mp hu with hu | hu
      · exact List.mem_cons_of_mem _ (h.2 u hu)
      · simp only [List.mem_singleton] at hu
        subst hu
        exact List.mem_cons_self _ _

theorem articleLoop_NoRefetch (env : CrawlEnv) (clock : Nat → PyDateTime)
    (maxA : Option Int) :
    ∀ (cands : List Candidate) (st : RunState), NoRefetch st →
      NoRefetch (articleLoop env clock maxA cands st) := by
  intro cands
  induction cands with
  | nil => intro st h; simpa [articleLoop] using h
  | cons info rest ih =>
    intro st h
    unfold articleLoop
    by_cases hl : limitHit maxA st = true
    · simpa [hl] using h
    · simp only [hl, Bool.false_eq_true, if_false]
      have hca := crawl_article_NoRefetch env clock info st h
      cases hres : crawl_article env clock info st with
      | mk res st' =>
        rw [hres] at hca
        cases res with
        | some a =>
          simp only
          exact ih _ ⟨hca.1, fun u hu => hca.2 u hu⟩
        | none => exact ih _ hca

theorem crawlLoop_NoRefetch (env : CrawlEnv) (clock : Nat → PyDateTime)
    (maxA maxP : Option Int) :
    ∀ (fuel pageNum : Nat) (st : RunState), NoRefetch st →
      NoRefetch (crawlLoop env clock maxA maxP fuel pageNum st) := by
  intro fuel
  induction fuel with
  | zero => intro pageNum st h; simpa [crawlLoop] using h
  | succ fuel ih =>
    intro pageNum st h
    unfold crawlLoop
    by_cases h1 : limitHit maxA st = true
    · simpa [h1] using h
    · simp only [h1, Bool.false_eq_true, if_false]
      by_cases h2 : pageLimitHit maxP pageNum = true
      · simpa [h2] using h
      · simp only [h2, Bool.false_eq_true, if_false]
        cases env.listing pageNum with
        | none => exact h
        | some doc =>
          simp only
          by_cases h3 : (extract_article_links
              (st.visited) (some doc) (pageUrlOf pageNum)).isEmpty = true
          · simp only [h3, if_true]
            exact h
          · simp only [h3, Bool.false_eq_true, if_false]
            exact ih _ _ (articleLoop_NoRefetch env clock maxA _ _ h)

/-- C3: within one run a URL is added to the visited set exactly at its
first attempt, before the fetch outcome is known (the visited set and the
fetch log change the same way whether the fetch succeeds, fails, or the
content gate rejects); a visited URL short-circuits `crawl_article` with
no fetch and no state change; and consequently the list of article-URL
fetches performed by a whole run never repeats a URL. -/
theorem C3_visited_once (env : CrawlEnv) (clock : Nat → PyDateTime)
    (maxArticles maxPages : Option Int) (fuel : Nat) (info : Candidate) (st : RunState) :
    (crawlRun env clock maxArticles maxPages fuel).articleFetches.Nodup ∧
    (crawl_article env clock info st).2.visited =
      (if info.url ∈ st.visited then st.visited else info.url :: st.visited) ∧
    (crawl_article env clock info st).2.articleFetches =
      (if info.url ∈ st.visited then st.articleFetches
        else st.articleFetches ++ [info.url]) ∧
    (info.url ∈ st.visited → crawl_article env clock info st = (none, st)) := by
  refine ⟨?_, (crawl_article_fields env clock info st).1,
    (crawl_article_fields env clock info st).2, ?_⟩
  · have : NoRefetch (crawlRun env clock maxArticles maxPages fuel) :=
      crawlLoop_NoRefetch env clock maxArticles maxPages fuel 1 initState
        ⟨List.nodup_nil, by simp [initState]⟩
    exact this.1
  · intro hmem
    unfold crawl_article
    rw [if_pos (List.elem_eq_true_of_mem hmem)]

/-- A state in which one URL has already been visited. -/
def c3St : RunState :=
  { articles := [], visited := ["https://www.cisa.gov/news-events/news/seen-article"],
    articleFetches := [], pageFetches := [], discoveries := [], tick := 0 }

/-- Witness for C3: an already-visited URL makes `crawl_article` return
`None` without touching the state. -/
theorem C3_visited_once_witness :
    crawl_article wEnvEmpty wClock
      { title := "An Already Visited Article",
        url := "https://www.cisa.gov/news-events/news/seen-article" } c3St = (none, c3St) :=
  (C3_visited_once wEnvEmpty wClock none none 0
    { title := "An Already Visited Article",
      url := "https://www.cisa.gov/news-events/news/seen-article" } c3St).2.2.2
    (by decide)

/-! ## Claim C2: the persisted article records -/

theorem digitChar_isDigitB (n : Nat) : isDigitB (digitChar n) = true := by
  unfold digitChar
  have h : n % 10 < 10 := Nat.mod_lt _ (by omega)
  set k := n % 10 with hk
  interval_cases k <;> decide

theorem digitVal_digitChar (n : Nat) : digitVal (digitChar n) = n % 10 := by
  unfold digitChar
  have h : n % 10 < 10 := Nat.mod_lt _ (by omega)
  set k := n % 10 with hk
  interval_cases k <;> decide

theorem iso_of_valid (d : PyDateTime) (h : d.Valid) :
    isISO8601 (pyIsoformat d) = true := by
  obtain ⟨hy, hm1, hm2, hd1, hd2, hh, hn, hs, hu⟩ := h
  show iso8601Core (pyIsoformat d).data = true
  by_cases hmu : d.microsecond = 0
  · simp only [pyIsoformat, hmu, if_true, pad4, pad2, List.cons_append, List.nil_append,
      List.append_nil]
    simp only [iso8601Core, isoDateTimePattern, isoFracPattern, matchPattern, sliceVal,
      List.take_succ_cons, List.take_nil, List.length_cons, List.length_nil,
      List.getD_cons_succ, List.getD_cons_zero, digitChar_isDigitB, digitVal_digitChar,
      Bool.and_eq_true, Bool.or_eq_true, decide_eq_true_eq, Bool.true_and, Bool.and_true]
    norm_num
    omega
  · simp only [pyIsoformat, if_neg hmu, pad4, pad2, pad6, List.cons_append,
      List.nil_append, List.append_nil]
    simp only [iso8601Core, isoDateTimePattern, isoFracPattern, matchPattern, sliceVal,
      List.take_succ_cons, List.take_nil, List.length_cons, List.length_nil,
      List.getD_cons_succ, List.getD_cons_zero, List.drop_succ_cons, List.drop_nil,
      List.drop, digitChar_isDigitB, digitVal_digitChar,
      Bool.and_eq_true, Bool.or_eq_true, decide_eq_true_eq, Bool.true_and, Bool.and_true]
    norm_num
    omega

/-- Goodness of the accumulated records: the content gate passed and the
timestamp is a valid ISO-8601 string. -/
def GoodArticles (st : RunState) : Prop :=
  ∀ a ∈ st.articles, 100 ≤ strLen a.content ∧ isISO8601 a.crawl_date = true

theorem crawl_article_articles (env : CrawlEnv) (clock : Nat → PyDateTime)
    (info : Candidate) (st : RunState) :
    (crawl_article env clock info st).2.articles = st.articles := by
  simp only [crawl_article]
  by_cases hc : st.visited.contains info.url = true
  · rw [if_pos hc]
  · rw [if_neg hc]
    cases env.article info.url with
    | none => simp
    | some doc =>
      by_cases hgate : extract_article_content (some doc.content) = "" ∨
          strLen (extract_article_content (some doc.content)) < 100
      · simp [hgate]
      · simp [hgate]

theorem crawl_article_some_good (env : CrawlEnv) (clock : Nat → PyDateTime)
    (info : Candidate) (st st' : RunState) (a : ArticleData)
    (hclock : ∀ t, (clock t).Valid)
    (hres : crawl_article env clock info st = (some a, st')) :
    100 ≤ strLen a.content ∧ isISO8601 a.crawl_date = true := by
  simp only [crawl_article] at hres
  by_cases hc : st.visited.contains info.url = true
  · rw [if_pos hc] at hres
    simp at hres
  · rw [if_neg hc] at hres
    cases hdoc : env.article info.url with
    | none =>
      rw [hdoc] at hres
      simp at hres
    | some doc =>
      rw [hdoc] at hres
      simp only at hres
      by_cases hgate : extract_article_content (some doc.content) = "" ∨
          strLen (extract_article_content (some doc.content)) < 100
      · rw [if_pos hgate] at hres
        simp at hres
      · rw [if_neg hgate] at hres
        have hfst := congrArg Prod.fst hres
        simp only at hfst
        injection hfst with hrec
        subst hrec
        push_neg at hgate
        exact ⟨hgate.2, iso_of_valid _ (hclock _)⟩

theorem articleLoop_good (env : CrawlEnv) (clock : Nat → PyDateTime)
    (maxA : Option Int) (hclock : ∀ t, (clock t).Valid) :
    ∀ (cands : List Candidate) (st : RunState), GoodArticles st →
      GoodArticles (articleLoop env clock maxA cands st) := by
  intro cands
  induction cands with
  | nil => intro st h; simpa [articleLoop] using h
  | cons info rest ih =>
    intro st h
    unfold articleLoop
    by_cases hl : limitHit maxA st = true
    · simpa [hl] using h
    · simp only [hl, Bool.false_eq_true, if_false]
      cases hres : crawl_article env clock info st with
      | mk res st' =>
        have harts : st'.articles = st.articles := by
          have := crawl_article_articles env clock info st
          rw [hres] at this
          exact this
        cases res with
        | some a =>
          simp only
          refine ih _ ?_
          intro x hx
          rw [harts] at hx
          rcases List.mem_append.mp hx with hx | hx
          · exact h x hx
          · simp only [List.mem_singleton] at hx
            subst hx
            exact crawl_article_some_good env clock info st st' x hclock hres
        | none =>
          refine ih _ ?_
          intro x hx
          rw [harts] at hx
          exact h x hx

theorem crawlLoop_good (env : CrawlEnv) (clock : Nat → PyDateTime)
    (maxA maxP : Option Int) (hclock : ∀ t, (clock t).Valid) :
    ∀ (fuel pageNum : Nat) (st : RunState), GoodArticles st →
      GoodArticles (crawlLoop env clock maxA maxP fuel pageNum st) := by
  intro fuel
  induction fuel with
  | zero => intro pageNum st h; simpa [crawlLoop] using h
  | succ fuel ih =>
    intro pageNum st h
    unfold crawlLoop
    by_cases h1 : limitHit maxA st = true
    · simpa [h1] using h
    · simp only [h1, Bool.false_eq_true, if_false]
      by_cases h2 : pageLimitHit maxP pageNum = true
      · simpa [h2] using h
      · simp only [h2, Bool.false_eq_true, if_false]
        cases env.listing pageNum with
        | none => exact h
        | some doc =>
          simp only
          by_cases h3 : (extract_article_links
              (st.visited) (some doc) (pageUrlOf pageNum)).isEmpty = true
          · simp only [h3, if_true]
            exact h
          · simp only [h3, Bool.false_eq_true, if_false]
            exact ih _ _ (articleLoop_good env clock maxA hclock _ _ h)

/-- C2 (amended): every record in the persisted report has content of at
least 100 characters after normalization, and its timestamp field — which
is named `crawl_date`, not `crawl_timestamp` — is a valid ISO-8601 string
whenever the system clock produces in-range datetime values. -/
theorem C2_persisted_records (env : CrawlEnv) (clock : Nat → PyDateTime)
    (maxArticles maxPages : Option Int) (fuel : Nat)
    (hclock : ∀ t, (clock t).Valid) :
    ∀ a ∈ (buildReport clock (crawlRun env clock maxArticles maxPages fuel)).articles,
      100 ≤ strLen a.content ∧ isISO8601 a.crawl_date = true := by
  intro a ha
  refine crawlLoop_good env clock maxArticles maxPages hclock fuel 1 initState ?_ a ha
  intro x hx
  simp [initState] at hx

/-- A listing page carrying a single qualifying tier-2 anchor. -/
def c2Listing : ListingDoc :=
  { hasArticleElements := false,
    anchors := [ { href := some ("/news-events/news/sample-security-advisory"),
                   text := "Sample Security Advisory Announcement" } ] }

/-- A 150-character article body. -/
def c2Body : String :=
  "aaaaaaaaaaaaaaaaaaaaaaaaaaaaaaaaaaaaaaaaaaaaaaaaaaaaaaaaaaaaaaaaaaaaaaaaaaaaaaaaaaaaaaaaaaaaaaaaaaaaaaaaaaaaaaaaaaaaaaaaaaaaaaaaaaaaaaaaaaaaaaaaaaaaaa"

/-- An article page whose body is the only extractable region. -/
def c2ArticleDoc : ArticleDoc := { meta := c7wDoc, content := bodyOnlyDoc c2Body }

/-- An environment with one listing page holding one article. -/
def c2Env : CrawlEnv :=
  { listing := fun n => if n = 1 then some c2Listing else none,
    article := fun _ => some c2ArticleDoc }

/-- The record the C2 environment produces. -/
def c2Rec : ArticleData :=
  { title := "Sample Security Advisory Announcement",
    url := "https://www.cisa.gov/news-events/news/sample-security-advisory",
    author := "", release_date := "", content := c2Body,
    crawl_date := pyIsoformat (wClock 0) }

example : (crawlRun c2Env wClock none none 3).articles = [c2Rec] := by decide

/-- The fixed witness clock always produces in-range datetimes. -/
theorem wClock_valid : ∀ t, (wClock t).Valid := by
  intro t
  show PyDateTime.Valid ⟨2025, 4, 1, 12, 30, 5, 123456⟩
  decide

/-- Witness for the amended C2 at the record of a concrete run. -/
theorem C2_persisted_records_witness :
    100 ≤ strLen c2Rec.content ∧ isISO8601 c2Rec.crawl_date = true :=
  C2_persisted_records c2Env wClock none none 3 wClock_valid c2Rec (by decide)

/-- C2 (counterexample): the serialized keys of every record of a concrete
persisted report are exactly `title, url, author, release_date, content,
crawl_date`; no record carries a field named `crawl_timestamp`. -/
theorem C2_counterexample :
    ((buildReport wClock (crawlRun c2Env wClock none none 3)).articles.map
        (fun a => (ArticleData.toFields a).map Prod.fst)) =
      [["title", "url", "author", "release_date", "content", "crawl_date"]] ∧
      "crawl_timestamp" ∉ ["title", "url", "author", "release_date", "content", "crawl_date"] :=
  ⟨by decide, by decide⟩

/-! ## Claim C8: failure handling of the run -/

/-- C8 (amended): an unrecoverable write error in `save_to_json` is caught
by its `except` block and only logged: the run still terminates normally
with process exit status 0, and the crawled records remain in the returned
in-memory state.  A failed article fetch is recovered locally: the loop
marks the URL visited, logs the attempt and continues with the remaining
candidates.  (A listing-page fetch failure stops pagination but the run
still proceeds to persistence and exits 0.) -/
theorem C8_persistence_failure_nonfatal (argv : List String) (env : CrawlEnv)
    (clock : Nat → PyDateTime) (sink : CrawlReport → Except String Unit)
    (maxArticles maxPages : Option Int) (fuel : Nat) :
    (pyMain argv env clock sink fuel).exitCode = 0 ∧
    (∀ e, sink (buildReport clock (crawlRun env clock maxArticles maxPages fuel)) =
        Except.error e →
      (runCrawler env clock sink maxArticles maxPages fuel).2 = SaveOutcome.errLogged e) ∧
    (runCrawler env clock sink maxArticles maxPages fuel).1 =
      crawlRun env clock maxArticles maxPages fuel ∧
    (∀ (info : Candidate) (rest : List Candidate) (st : RunState),
      limitHit maxArticles st = false → info.url ∉ st.visited →
      env.article info.url = none →
      articleLoop env clock maxArticles (info :: rest) st =
        articleLoop env clock maxArticles rest
          { st with visited := info.url :: st.visited,
                    articleFetches := st.articleFetches ++ [info.url] }) := by
  refine ⟨rfl, ?_, rfl, ?_⟩
  · intro e he
    simp only [runCrawler, save_to_json, he]
  · intro info rest st hl hnv hdoc
    have hca : crawl_article env clock info st =
        (none, { st with visited := info.url :: st.visited,
                         articleFetches := st.articleFetches ++ [info.url] }) := by
      unfold crawl_article
      rw [if_neg (by simpa using hnv), hdoc]
    simp only [articleLoop, hl, Bool.false_eq_true, if_false, hca]

/-- A sink whose write always fails. -/
def wSinkFail : CrawlReport → Except String Unit := fun _ => Except.error "disk full"

/-- C8 (counterexample): with a failing sink the persistence error is only
logged; the run completes with process exit status 0, not a non-zero
outcome, and a listing fetch failure on every page did not raise either. -/
theorem C8_counterexample :
    (pyMain ["cisa_crawler.py"] wEnvEmpty wClock wSinkFail 3).exitCode = 0 ∧
      (pyMain ["cisa_crawler.py"] wEnvEmpty wClock wSinkFail 3).outcome =
        SaveOutcome.errLogged "disk full" := by
  exact ⟨rfl, by decide⟩

/-- Witness for the amended C8: the failing-sink run is logged as an error
while exiting normally. -/
theorem C8_persistence_failure_nonfatal_witness :
    (runCrawler c2Env wClock wSinkFail none none 3).2 =
      SaveOutcome.errLogged "disk full" :=
  (C8_persistence_failure_nonfatal ["cisa_crawler.py"] c2Env wClock wSinkFail
    none none 3).2.1 "disk full" rfl

/-! ## Claim C4: termination on the first empty listing page -/

theorem crawl_article_logs (env : CrawlEnv) (clock : Nat → PyDateTime)
    (info : Candidate) (st : RunState) :
    (crawl_article env clock info st).2.pageFetches = st.pageFetches ∧
    (crawl_article env clock info st).2.discoveries = st.discoveries := by
  simp only [crawl_article]
  by_cases hc : st.visited.contains info.url = true
  · rw [if_pos hc]; exact ⟨rfl, rfl⟩
  · rw [if_neg hc]
    cases env.article info.url with
    | none => exact ⟨rfl, rfl⟩
    | some doc =>
      by_cases hgate : extract_article_content (some doc.content) = "" ∨
          strLen (extract_article_content (some doc.content)) < 100
      · simp [hgate]
      · simp [hgate]

theorem articleLoop_logs (env : CrawlEnv) (clock : Nat → PyDateTime)
    (maxA : Option Int) :
    ∀ (cands : List Candidate) (st : RunState),
      (articleLoop env clock maxA cands st).pageFetches = st.pageFetches ∧
      (articleLoop env clock maxA cands st).discoveries = st.discoveries := by
  intro cands
  induction cands with
  | nil => intro st; simp [articleLoop]
  | cons info rest ih =>
    intro st
    unfold articleLoop
    by_cases hl : limitHit maxA st = true
    · simp [hl]
    · simp only [hl, Bool.false_eq_true, if_false]
      have hca := crawl_article_logs env clock info st
      cases hres : crawl_article env clock info st with
      | mk res st' =>
        rw [hres] at hca
        cases res with
        | some a =>
          simp only
          obtain ⟨h1, h2⟩ := ih { st' with articles := st'.articles ++ [a] }
          exact ⟨h1.trans hca.1, h2.trans hca.2⟩
        | none =>
          obtain ⟨h1, h2⟩ := ih st'
          exact ⟨h1.trans hca.1, h2.trans hca.2⟩

theorem crawlLoop_mono (env : CrawlEnv) (clock : Nat → PyDateTime) :
    ∀ (fuel p : Nat) (st : RunState),
      ∃ ds, (crawlLoop env clock none none fuel p st).discoveries =
        st.discoveries ++ ds := by
  intro fuel
  induction fuel with
  | zero => intro p st; exact ⟨[], by simp [crawlLoop]⟩
  | succ fuel ih =>
    intro p st
    unfold crawlLoop
    simp only [limitHit, pageLimitHit, Bool.false_eq_true, if_false]
    cases env.listing p with
    | none => exact ⟨[], by simp⟩
    | some doc =>
      simp only
      by_cases h3 : (extract_article_links
          (st.visited) (some doc) (pageUrlOf p)).isEmpty = true
      · simp only [h3, if_true]
        exact ⟨[(extract_article_links (st.visited) (some doc) (pageUrlOf p)).length],
          by simp⟩
      · simp only [h3, Bool.false_eq_true, if_false]
        obtain ⟨ds, hds⟩ := ih (p + 1) (articleLoop env clock none
          (extract_article_links (st.visited) (some doc) (pageUrlOf p))
          { st with pageFetches := st.pageFetches ++ [p],
                    discoveries := st.discoveries ++
                      [(extract_article_links (st.visited) (some doc) (pageUrlOf p)).length] })
        refine ⟨(extract_article_links (st.visited) (some doc) (pageUrlOf p)).length :: ds, ?_⟩
        rw [hds, (articleLoop_logs env clock none _ _).2]
        simp

theorem crawlLoop_trace (env : CrawlEnv) (clock : Nat → PyDateTime) :
    ∀ (fuel p : Nat) (st : RunState) (ds : List Nat),
      (crawlLoop env clock none none fuel p st).discoveries =
        st.discoveries ++ ds ++ [0] →
      (∀ c ∈ ds, 0 < c) →
      (crawlLoop env clock none none fuel p st).pageFetches =
        st.pageFetches ++ List.range' p (ds.length + 1) := by
  intro fuel
  induction fuel with
  | zero =>
    intro p st ds h hpos
    exfalso
    simp only [crawlLoop] at h
    have := congrArg List.length h
    simp at this
  | succ fuel ih =>
    intro p st ds h hpos
    rw [crawlLoop] at h ⊢
    simp only [limitHit, pageLimitHit, Bool.false_eq_true, if_false] at h ⊢
    cases hlp : env.listing p with
    | none =>
      exfalso
      simp only [hlp] at h
      have := congrArg List.length h
      simp at this
    | some doc =>
      simp only [hlp] at h ⊢
      by_cases h3 : (extract_article_links
          (st.visited) (some doc) (pageUrlOf p)).isEmpty = true
      · rw [if_pos h3] at h ⊢
        simp only at h
        have hlen0 : (extract_article_links (st.visited) (some doc) (pageUrlOf p)).length
            = 0 := by
          simpa [List.isEmpty_iff, List.length_eq_zero] using h3
        rw [hlen0] at h
        have hcancel : [0] = ds ++ [0] := by
          have h' : st.discoveries ++ [0] = st.discoveries ++ (ds ++ [0]) := by
            simpa using h
          exact List.append_cancel_left h'
        have hds : ds = [] := by
          cases ds with
          | nil => rfl
          | cons d ds' =>
            exfalso
            have hl := congrArg List.length hcancel
            simp at hl
        subst hds
        simp [List.range']
      · rw [if_neg h3] at h ⊢
        have hlogs := articleLoop_logs env clock none
          (extract_article_links (st.visited) (some doc) (pageUrlOf p))
          { st with pageFetches := st.pageFetches ++ [p],
                    discoveries := st.discoveries ++
                      [(extract_article_links (st.visited) (some doc) (pageUrlOf p)).length] }
        obtain ⟨ds', hds'⟩ := crawlLoop_mono env clock fuel (p + 1) (articleLoop env clock none
          (extract_article_links (st.visited) (some doc) (pageUrlOf p))
          { st with pageFetches := st.pageFetches ++ [p],
                    discoveries := st.discoveries ++
                      [(extract_article_links (st.visited) (some doc) (pageUrlOf p)).length] })
        have hshape : (extract_article_links (st.visited) (some doc) (pageUrlOf p)).length
            :: ds' = ds ++ [0] := by
          rw [hds', hlogs.2] at h
          simp only [List.append_assoc] at h
          have := List.append_cancel_left h
          simpa using this
        cases ds with
        | nil =>
          exfalso
          have hc0 : (extract_article_links (st.visited) (some doc) (pageUrlOf p)).length
              = 0 := by
            simpa using congrArg (fun l => l.headD 1) hshape
          have hnil : extract_article_links (st.visited) (some doc) (pageUrlOf p) = [] :=
            List.length_eq_zero.mp hc0
          rw [hnil] at h3
          simp at h3
        | cons d ds2 =>
          simp only [List.cons_append, List.cons.injEq] at hshape
          have hih := ih (p + 1) (articleLoop env clock none
            (extract_article_links (st.visited) (some doc) (pageUrlOf p))
            { st with pageFetches := st.pageFetches ++ [p],
                      discoveries := st.discoveries ++
                        [(extract_article_links (st.visited) (some doc) (pageUrlOf p)).length] })
            ds2 ?_ ?_
          · rw [hih, hlogs.1]
            simp [List.range', List.append_assoc]
          · rw [hds', hlogs.2]
            simp only [List.append_assoc]
            congr 1
            simp [hshape.2]
          · intro c hc
            exact hpos c (List.mem_cons_of_mem _ hc)

/-- The number of listing pages that yielded at least one candidate. -/
def pagesProcessed (st : RunState) : Nat :=
  (st.discoveries.filter (fun c => decide (0 < c))).length

/-- C4: if in a run without limits the discovery log is a list of
positive counts followed by a final zero — page `k` is the first page
yielding zero candidates — then exactly `k - 1` pages were processed,
the pages fetched are exactly `1..k`, and page `k + 1` is never fetched. -/
theorem C4_empty_page_halts (env : CrawlEnv) (clock : Nat → PyDateTime)
    (fuel k : Nat) (ds : List Nat)
    (hds : (crawlRun env clock none none fuel).discoveries = ds ++ [0])
    (hpos : ∀ c ∈ ds, 0 < c)
    (hk : k = ds.length + 1) (_hk1 : 1 < k) :
    pagesProcessed (crawlRun env clock none none fuel) = k - 1 ∧
    (crawlRun env clock none none fuel).pageFetches = List.range' 1 k ∧
    (k + 1) ∉ (crawlRun env clock none none fuel).pageFetches := by
  have hpf := crawlLoop_trace env clock fuel 1 initState ds
    (by simpa [initState] using hds) hpos
  have hpf' : (crawlRun env clock none none fuel).pageFetches = List.range' 1 k := by
    rw [hk]
    simpa [initState, crawlRun] using hpf
  refine ⟨?_, hpf', ?_⟩
  · unfold pagesProcessed
    rw [hds, List.filter_append]
    rw [List.filter_eq_self.mpr (fun c hc => by simpa using hpos c hc)]
    simp [hk]
  · rw [hpf']
    intro hmem
    rw [List.mem_range'_1] at hmem
    omega

/-- A listing page with no anchors at all: discovery yields nothing. -/
def c4EmptyDoc : ListingDoc := { hasArticleElements := false, anchors := [] }

/-- Two populated listing pages followed by an empty page 3. -/
def c4Env : CrawlEnv :=
  { listing := fun n => if n ≤ 2 then some c2Listing
      else if n = 3 then some c4EmptyDoc else none,
    article := fun _ => none }

/-- Witness for C4: with pages 1 and 2 yielding one candidate each and
page 3 yielding none, two pages are processed, pages 1..3 are fetched and
page 4 is not. -/
theorem C4_empty_page_halts_witness :
    pagesProcessed (crawlRun c4Env wClock none none 5) = 2 ∧
    (crawlRun c4Env wClock none none 5).pageFetches = List.range' 1 3 ∧
    4 ∉ (crawlRun c4Env wClock none none 5).pageFetches :=
  C4_empty_page_halts c4Env wClock 5 3 [1, 1] (by decide) (by decide) rfl (by decide)

/-! ## Claim C5: the article-count limit -/

/-- A candidate whose article page fetches and passes the content gate. -/
def candOk (env : CrawlEnv) (c : Candidate) : Bool :=
  match env.article c.url with
  | none => false
  | some d => decide (100 ≤ strLen (extract_article_content (some d.content)))

theorem crawl_article_success (env : CrawlEnv) (clock : Nat → PyDateTime)
    (info : Candidate) (st : RunState)
    (hfresh : info.url ∉ st.visited) (hok : candOk env info = true) :
    ∃ a, crawl_article env clock info st =
      (some a, { st with
                   visited := info.url :: st.visited,
                   articleFetches := st.articleFetches ++ [info.url],
                   tick := st.tick + 1 }) := by
  unfold candOk at hok
  cases hdoc : env.article info.url with
  | none => rw [hdoc] at hok; simp at hok
  | some doc =>
    rw [hdoc] at hok
    simp only [decide_eq_true_eq] at hok
    have hne : extract_article_content (some doc.content) ≠ "" := by
      intro heq
      rw [heq] at hok
      simp [strLen] at hok
    have hgate : ¬(extract_article_content (some doc.content) = "" ∨
        strLen (extract_article_content (some doc.content)) < 100) := by
      push_neg
      exact ⟨hne, by omega⟩
    have hcontains : ¬(st.visited.contains info.url = true) := by simpa using hfresh
    refine ⟨{ title := info.title,
              url := info.url,
              author := (metaFields doc.meta).2,
              release_date := (metaFields doc.meta).1,
              content := extract_article_content (some doc.content),
              crawl_date := pyIsoformat (clock st.tick) }, ?_⟩
    simp only [crawl_article, hdoc, if_neg hcontains, if_neg hgate]

theorem articleLoop_count (env : CrawlEnv) (clock : Nat → PyDateTime)
    (V : Nat) (hV : 0 < V) :
    ∀ (cands : List Candidate) (st : RunState),
      st.articles.length ≤ V →
      (∀ c ∈ cands, candOk env c = true) →
      (∀ c ∈ cands, c.url ∉ st.visited) →
      ((cands.map Candidate.url).Nodup) →
      (articleLoop env clock (some (V : Int)) cands st).articles.length =
        min (st.articles.length + cands.length) V ∧
      (articleLoop env clock (some (V : Int)) cands st).articleFetches.length =
        st.articleFetches.length +
          (min (st.articles.length + cands.length) V - st.articles.length) ∧
      (articleLoop env clock (some (V : Int)) cands st).pageFetches = st.pageFetches := by
  intro cands
  induction cands with
  | nil =>
    intro st hle _ _ _
    have hmin : min (st.articles.length + ([] : List Candidate).length) V
        = st.articles.length := by
      simp only [List.length_nil, Nat.add_zero]
      exact Nat.min_eq_left hle
    refine ⟨?_, ?_, rfl⟩
    · simp only [articleLoop, hmin]
    · simp only [articleLoop, hmin]
      omega
  | cons info rest ih =>
    intro st hle hok hfresh hnodup
    have hnd := hnodup
    simp only [List.map_cons, List.nodup_cons] at hnd
    by_cases hfull : V ≤ st.articles.length
    · have ha : st.articles.length = V := Nat.le_antisymm hle hfull
      have hl : limitHit (some (V : Int)) st = true := by
        have h1 : ¬((V : Int) = 0) := by exact_mod_cast hV.ne'
        have h2 : (V : Int) ≤ (st.articles.length : Int) := by exact_mod_cast ha.ge
        simp [limitHit, h1, h2]
      have hmin : min (st.articles.length + (info :: rest).length) V = V :=
        Nat.min_eq_right (by omega)
      unfold articleLoop
      rw [if_pos hl]
      refine ⟨?_, ?_, rfl⟩
      · rw [hmin, ha]
      · rw [hmin, ha]
        omega
    · push_neg at hfull
      have hl : limitHit (some (V : Int)) st = false := by
        have h2 : ¬((V : Int) ≤ (st.articles.length : Int)) := by exact_mod_cast hfull.not_le
        simp [limitHit, h2]
      obtain ⟨a, ha⟩ := crawl_article_success env clock info st
        (hfresh info (List.mem_cons_self _ _)) (hok info (List.mem_cons_self _ _))
      unfold articleLoop
      rw [hl]
      simp only [Bool.false_eq_true, if_false, ha]
      have hrest := ih { st with
          articles := st.articles ++ [a],
          visited := info.url :: st.visited,
          articleFetches := st.articleFetches ++ [info.url],
          tick := st.tick + 1 }
        (by simp only [List.length_append, List.length_singleton]; omega)
        (fun c hc => hok c (List.mem_cons_of_mem _ hc))
        (fun c hc => by
          simp only [List.mem_cons]
          push_neg
          constructor
          · intro heq
            exact hnd.1 (heq ▸ List.mem_map_of_mem Candidate.url hc)
          · exact hfresh c (List.mem_cons_of_mem _ hc))
        hnd.2
      obtain ⟨h1, h2, h3⟩ := hrest
      simp only [List.length_append, List.length_singleton, List.length_cons,
        List.length_nil] at h1 h2 ⊢
      have harg : st.articles.length + 1 + rest.length
          = st.articles.length + (rest.length + 1) := by omega
      rw [harg] at h1 h2
      have hM : st.articles.length + 1 ≤ min (st.articles.length + (rest.length + 1)) V :=
        Nat.le_min.mpr ⟨by omega, by omega⟩
      exact ⟨by omega, by omega, h3⟩

/-- C5: with `--max 5` and a first listing page of 10 qualifying candidates
(pairwise-distinct URLs, every fetch passing the content gate), the run
produces exactly 5 records, attempts exactly 5 article fetches — the limit
stops the article loop mid-way — and never fetches listing page 2. -/
theorem C5_max_articles_limit (env : CrawlEnv) (clock : Nat → PyDateTime)
    (fuel : Nat) (hfuel : 1 ≤ fuel) (doc : ListingDoc)
    (hdoc : env.listing 1 = some doc)
    (hlen : (extract_article_links [] (some doc) (pageUrlOf 1)).length = 10)
    (hok : ∀ c ∈ extract_article_links [] (some doc) (pageUrlOf 1), candOk env c = true)
    (hnodup : ((extract_article_links [] (some doc) (pageUrlOf 1)).map
        Candidate.url).Nodup) :
    (crawlRun env clock (some 5) none fuel).articles.length = 5 ∧
    (crawlRun env clock (some 5) none fuel).articleFetches.length = 5 ∧
    (crawlRun env clock (some 5) none fuel).pageFetches = [1] := by
  obtain ⟨f, rfl⟩ : ∃ f, fuel = f + 1 := ⟨fuel - 1, by omega⟩
  have hne : extract_article_links [] (some doc) (pageUrlOf 1) ≠ [] := by
    intro h
    rw [h] at hlen
    simp at hlen
  have hemp : (extract_article_links [] (some doc) (pageUrlOf 1)).isEmpty = false := by
    simpa [List.isEmpty_iff] using hne
  have hstep : crawlRun env clock (some 5) none (f + 1) =
      crawlLoop env clock (some 5) none f 2
        (articleLoop env clock (some 5)
          (extract_article_links [] (some doc) (pageUrlOf 1))
          { articles := [], visited := [], articleFetches := [],
            pageFetches := [1], discoveries := [10], tick := 0 }) := by
    rw [crawlRun, crawlLoop]
    have hlim0 : limitHit (some 5)
        { articles := [], visited := [], articleFetches := [], pageFetches := [],
          discoveries := [], tick := 0 } = false := rfl
    have hplim0 : pageLimitHit none 1 = false := rfl
    simp only [initState, hlim0, hplim0, Bool.false_eq_true, if_false, hdoc, hemp,
      List.nil_append, hlen, show (1 : Nat) + 1 = 2 from rfl]
  have hcount := articleLoop_count env clock 5 (by omega)
    (extract_article_links [] (some doc) (pageUrlOf 1))
    { articles := [], visited := [], articleFetches := [],
      pageFetches := [1], discoveries := [10], tick := 0 }
    (by simp) hok (by simp) hnodup
  obtain ⟨h1, h2, h3⟩ := hcount
  simp only [Nat.cast_ofNat] at h1 h2 h3
  rw [hlen] at h1 h2
  simp only [List.length_nil, Nat.zero_add] at h1 h2
  have hmin : min 10 5 = 5 := Nat.min_eq_right (by omega)
  rw [hmin] at h1 h2
  simp only [Nat.sub_zero, Nat.zero_add] at h2
  have hfin : ∀ (g : Nat), crawlLoop env clock (some 5) none g 2
      (articleLoop env clock (some 5)
        (extract_article_links [] (some doc) (pageUrlOf 1))
        { articles := [], visited := [], articleFetches := [],
          pageFetches := [1], discoveries := [10], tick := 0 }) =
      articleLoop env clock (some 5)
        (extract_article_links [] (some doc) (pageUrlOf 1))
        { articles := [], visited := [], articleFetches := [],
          pageFetches := [1], discoveries := [10], tick := 0 } := by
    intro g
    cases g with
    | zero => rfl
    | succ g' =>
      rw [crawlLoop]
      have hlim : limitHit (some 5)
          (articleLoop env clock (some 5)
            (extract_article_links [] (some doc) (pageUrlOf 1))
            { articles := [], visited := [], articleFetches := [],
              pageFetches := [1], discoveries := [10], tick := 0 }) = true := by
        simp only [limitHit, h1]
        decide
      rw [if_pos hlim]
  rw [hstep, hfin f]
  exact ⟨h1, h2, h3⟩

/-- A listing page carrying ten qualifying tier-2 anchors with pairwise
distinct URLs. -/
def c5Listing : ListingDoc :=
  { hasArticleElements := false,
    anchors := [
      { href := some ("/news-events/news/advisory-item-01"), text := "Security Advisory Item Number 01" },
      { href := some ("/news-events/news/advisory-item-02"), text := "Security Advisory Item Number 02" },
      { href := some ("/news-events/news/advisory-item-03"), text := "Security Advisory Item Number 03" },
      { href := some ("/news-events/news/advisory-item-04"), text := "Security Advisory Item Number 04" },
      { href := some ("/news-events/news/advisory-item-05"), text := "Security Advisory Item Number 05" },
      { href := some ("/news-events/news/advisory-item-06"), text := "Security Advisory Item Number 06" },
      { href := some ("/news-events/news/advisory-item-07"), text := "Security Advisory Item Number 07" },
      { href := some ("/news-events/news/advisory-item-08"), text := "Security Advisory Item Number 08" },
      { href := some ("/news-events/news/advisory-item-09"), text := "Security Advisory Item Number 09" },
      { href := some ("/news-events/news/advisory-item-10"), text := "Security Advisory Item Number 10" } ] }

/-- An environment whose first page holds ten candidates, all of which
fetch and pass the content gate. -/
def c5Env : CrawlEnv :=
  { listing := fun n => if n = 1 then some c5Listing else none,
    article := fun _ => some c2ArticleDoc }

/-- Witness for C5 on the concrete ten-candidate page. -/
theorem C5_max_articles_limit_witness :
    (crawlRun c5Env wClock (some 5) none 3).articles.length = 5 ∧
    (crawlRun c5Env wClock (some 5) none 3).articleFetches.length = 5 ∧
    (crawlRun c5Env wClock (some 5) none 3).pageFetches = [1] :=
  C5_max_articles_limit c5Env wClock 3 (by omega) c5Listing (by decide) (by decide)
    (by decide) (by decide)

/-! ## Claims C6 and C9: the normalization passes

The analysis predicate `pairOk bad l` states that no adjacent pair of
characters of `l` is `bad`; the three scans of the cleanup block are each
the identity exactly on inputs free of their trigger pair. -/

/-- No adjacent character pair of the list satisfies `bad`. -/
def pairOk (bad : Char → Char → Bool) : List Char → Bool
  | [] => true
  | a :: rest =>
    (match rest with
     | [] => true
     | b :: _ => !bad a b) && pairOk bad rest

/-- The trigger pair of `collapseSpaces`: two adjacent spaces. -/
def ndsBad (a b : Char) : Bool := decide (a = ' ') && decide (b = ' ')

/-- The trigger pair of `collapseBlank`: a newline followed by whitespace. -/
def nlWsBad (a b : Char) : Bool := decide (a = '\n') && isPySpace b

/-- The trigger pair of `stripAfterNl`: a newline followed by a space. -/
def nlSpBad (a b : Char) : Bool := decide (a = '\n') && decide (b = ' ')

theorem pairOk_cons_head? (bad : Char → Char → Bool) (a : Char) (l : List Char) :
    pairOk bad (a :: l) = true ↔
      (∀ b, l.head? = some b → bad a b = false) ∧ pairOk bad l = true := by
  cases l with
  | nil => simp [pairOk]
  | cons b t =>
    simp only [pairOk, Bool.and_eq_true, List.head?_cons, Option.some.injEq]
    constructor
    · rintro ⟨h1, h2⟩
      exact ⟨fun c hc => by subst hc; simpa using h1, h2⟩
    · rintro ⟨h1, h2⟩
      exact ⟨by simpa using h1 b rfl, h2⟩

theorem pairOk_tail (bad : Char → Char → Bool) (a : Char) (l : List Char)
    (h : pairOk bad (a :: l) = true) : pairOk bad l = true :=
  ((pairOk_cons_head? bad a l).mp h).2

theorem pairOk_append_right (bad : Char → Char → Bool) :
    ∀ (xs ys : List Char), pairOk bad (xs ++ ys) = true → pairOk bad ys = true := by
  intro xs
  induction xs with
  | nil => intro ys h; simpa using h
  | cons a xs ih =>
    intro ys h
    exact ih ys (pairOk_tail bad a (xs ++ ys) h)

theorem pairOk_append_left (bad : Char → Char → Bool) :
    ∀ (xs ys : List Char), pairOk bad (xs ++ ys) = true → pairOk bad xs = true := by
  intro xs
  induction xs with
  | nil => intro ys h; rfl
  | cons a xs ih =>
    intro ys h
    rw [List.cons_append] at h
    obtain ⟨h1, h2⟩ := (pairOk_cons_head? bad a (xs ++ ys)).mp h
    rw [pairOk_cons_head? bad a xs]
    refine ⟨?_, ih ys h2⟩
    intro b hb
    refine h1 b ?_
    cases xs with
    | nil => simp at hb
    | cons c t => simpa using hb

theorem pairOk_infix (bad : Char → Char → Bool) (l l' : List Char)
    (h : pairOk bad l = true) (hinf : l' <:+: l) : pairOk bad l' = true := by
  obtain ⟨s, t, rfl⟩ := hinf
  rw [List.append_assoc] at h
  exact pairOk_append_left bad l' t (pairOk_append_right bad s (l' ++ t) h)

theorem pairOk_mono (bad bad' : Char → Char → Bool)
    (hm : ∀ a b, bad' a b = true → bad a b = true) :
    ∀ l, pairOk bad l = true → pairOk bad' l = true := by
  intro l
  induction l with
  | nil => intro h; rfl
  | cons a l ih =>
    intro h
    obtain ⟨h1, h2⟩ := (pairOk_cons_head? bad a l).mp h
    rw [pairOk_cons_head? bad' a l]
    refine ⟨?_, ih h2⟩
    intro b hb
    have h3 : bad a b = false := h1 b hb
    cases hb2 : bad' a b with
    | false => rfl
    | true =>
      rw [hm a b hb2] at h3
      exact h3

theorem pairOk_of_fst_safe (bad : Char → Char → Bool) :
    ∀ l, (∀ a ∈ l, ∀ b, bad a b = false) → pairOk bad l = true := by
  intro l
  induction l with
  | nil => intro _; rfl
  | cons a l ih =>
    intro h
    rw [pairOk_cons_head? bad a l]
    exact ⟨fun b _ => h a (List.mem_cons_self _ _) b,
      ih (fun x hx b => h x (List.mem_cons_of_mem _ hx) b)⟩

theorem pairOk_append_intro (bad : Char → Char → Bool) :
    ∀ (xs ys : List Char), pairOk bad xs = true → pairOk bad ys = true →
      (∀ a b, xs.getLast? = some a → ys.head? = some b → bad a b = false) →
      pairOk bad (xs ++ ys) = true := by
  intro xs
  induction xs with
  | nil => intro ys _ hy _; simpa using hy
  | cons a xs ih =>
    intro ys hx hy hb
    rw [List.cons_append, pairOk_cons_head? bad a (xs ++ ys)]
    obtain ⟨h1, h2⟩ := (pairOk_cons_head? bad a xs).mp hx
    constructor
    · intro b hbb
      cases xs with
      | nil =>
        refine hb a b (by simp) ?_
        simpa using hbb
      | cons c t =>
        exact h1 b (by simpa using hbb)
    · refine ih ys h2 hy ?_
      intro x y hx2 hy2
      refine hb x y ?_ hy2
      cases xs with
      | nil => simp at hx2
      | cons c t => simpa [List.getLast?_cons_cons] using hx2

/-! ### Structure of `stripList` -/

theorem dropWhile_head_false (p : Char → Bool) :
    ∀ (l : List Char) (c : Char), (l.dropWhile p).head? = some c → p c = false := by
  intro l
  induction l with
  | nil => intro c h; simp at h
  | cons a t ih =>
    intro c h
    rw [List.dropWhile_cons] at h
    by_cases hp : p a = true
    · rw [if_pos hp] at h
      exact ih c h
    · rw [if_neg hp] at h
      rw [List.head?_cons, Option.some.injEq] at h
      subst h
      simp only [Bool.not_eq_true] at hp
      exact hp

theorem dropWhile_eq_self_of_head (p : Char → Bool) (l : List Char)
    (h : ∀ c, l.head? = some c → p c = false) : l.dropWhile p = l := by
  cases l with
  | nil => rfl
  | cons a t =>
    have ha := h a rfl
    rw [List.dropWhile_cons, if_neg (by simp [ha])]

theorem dropWhile_idem (p : Char → Bool) (l : List Char) :
    (l.dropWhile p).dropWhile p = l.dropWhile p :=
  dropWhile_eq_self_of_head p _ (fun c hc => dropWhile_head_false p l c hc)

theorem dropTrailing_reverse (l : List Char) :
    (dropTrailing l).reverse = l.reverse.dropWhile isPySpace := by
  simp [dropTrailing]

theorem dropTrailing_idem (l : List Char) :
    dropTrailing (dropTrailing l) = dropTrailing l := by
  show ((dropTrailing l).reverse.dropWhile isPySpace).reverse = dropTrailing l
  rw [dropTrailing_reverse, dropWhile_idem]
  rfl

theorem dropTrailing_prefix_self (l : List Char) : dropTrailing l <+: l := by
  have h : (dropTrailing l).reverse <:+ l.reverse := by
    rw [dropTrailing_reverse]
    exact List.dropWhile_suffix isPySpace
  exact List.reverse_suffix.mp h

theorem stripList_infix (l : List Char) : stripList l <:+: l :=
  (dropTrailing_prefix_self _).isInfix.trans (List.dropWhile_suffix isPySpace).isInfix

theorem stripList_head_false (l : List Char) (c : Char)
    (h : (stripList l).head? = some c) : isPySpace c = false := by
  obtain ⟨t, ht⟩ := dropTrailing_prefix_self (l.dropWhile isPySpace)
  apply dropWhile_head_false isPySpace l c
  rw [← ht]
  show (stripList l ++ t).head? = some c
  cases hs : stripList l with
  | nil => rw [hs] at h; simp at h
  | cons a m =>
    rw [hs] at h
    simpa using h

theorem stripList_idem (l : List Char) : stripList (stripList l) = stripList l := by
  show dropTrailing ((stripList l).dropWhile isPySpace) = stripList l
  rw [dropWhile_eq_self_of_head isPySpace _ (fun c hc => stripList_head_false l c hc)]
  show dropTrailing (dropTrailing (l.dropWhile isPySpace)) = stripList l
  rw [dropTrailing_idem]
  rfl

/-! ### Equation shapes of the three scanners -/

theorem collapseSpaces_cons2 (a b : Char) (rest : List Char) :
    collapseSpaces (a :: b :: rest) =
      if a = ' ' ∧ b = ' ' then collapseSpaces (b :: rest)
      else a :: collapseSpaces (b :: rest) := rfl

theorem sanGo_cons (mode : Bool) (c : Char) (rest : List Char) :
    sanGo mode (c :: rest) =
      if c = ' ' then (if mode then sanGo true rest else ' ' :: sanGo false rest)
      else if c = '\n' then '\n' :: sanGo true rest
      else c :: sanGo false rest := rfl

theorem cbGo_zero_cons (c : Char) (rest : List Char) :
    cbGo 0 [] (c :: rest) = if c = '\n' then cbGo 1 [] rest else c :: cbGo 0 [] rest := rfl

theorem cbGo_one_cons (b : List Char) (c : Char) (rest : List Char) :
    cbGo 1 b (c :: rest) =
      if c = '\n' then cbGo 2 [] rest
      else if isPySpace c then cbGo 1 (b ++ [c]) rest
      else ('\n' :: b) ++ c :: cbGo 0 [] rest := rfl

theorem ndsBad_eq_false (a b : Char) : ndsBad a b = false ↔ ¬ (a = ' ' ∧ b = ' ') := by
  simp [ndsBad]

/-! ### The three substitution passes are the identity on pair-free text -/

theorem collapseSpaces_id : ∀ l, pairOk ndsBad l = true → collapseSpaces l = l := by
  intro l
  induction l with
  | nil => intro _; rfl
  | cons a t ih =>
    intro h
    cases t with
    | nil => rfl
    | cons b r =>
      have hb : ndsBad a b = false := ((pairOk_cons_head? ndsBad a (b :: r)).mp h).1 b rfl
      rw [collapseSpaces_cons2, if_neg ((ndsBad_eq_false a b).mp hb),
        ih (pairOk_tail ndsBad a (b :: r) h)]

theorem sanGo_id : ∀ (l : List Char) (mode : Bool), pairOk nlSpBad l = true →
    (mode = true → ∀ c, l.head? = some c → c ≠ ' ') → sanGo mode l = l := by
  intro l
  induction l with
  | nil => intro mode _ _; cases mode <;> rfl
  | cons c rest ih =>
    intro mode h hm
    have h2 : pairOk nlSpBad rest = true := pairOk_tail nlSpBad c rest h
    have h1 := ((pairOk_cons_head? nlSpBad c rest).mp h).1
    rw [sanGo_cons]
    by_cases hc : c = ' '
    · cases mode with
      | true => exact absurd hc (hm rfl c rfl)
      | false =>
        rw [if_pos hc, if_neg Bool.false_ne_true,
          ih false h2 (fun hf => absurd hf Bool.false_ne_true), hc]
    · rw [if_neg hc]
      by_cases hn : c = '\n'
      · rw [if_pos hn]
        have hhd : ∀ d, rest.head? = some d → d ≠ ' ' := by
          intro d hd hds
          have hbad := h1 d hd
          rw [hn, hds] at hbad
          simp [nlSpBad] at hbad
        rw [ih true h2 (fun _ => hhd), hn]
      · rw [if_neg hn, ih false h2 (fun hf => absurd hf Bool.false_ne_true)]

theorem cbGo_id : ∀ l, pairOk nlWsBad l = true →
    (cbGo 0 [] l = l ∧
      ((∀ c, l.head? = some c → isPySpace c = false) → cbGo 1 [] l = '\n' :: l)) := by
  intro l
  induction l with
  | nil => exact fun _ => ⟨rfl, fun _ => rfl⟩
  | cons c rest ih =>
    intro h
    have h2 : pairOk nlWsBad rest = true := pairOk_tail nlWsBad c rest h
    have h1 := ((pairOk_cons_head? nlWsBad c rest).mp h).1
    obtain ⟨ih0, ih1⟩ := ih h2
    constructor
    · rw [cbGo_zero_cons]
      by_cases hn : c = '\n'
      · rw [if_pos hn]
        have hhd : ∀ d, rest.head? = some d → isPySpace d = false := by
          intro d hd
          have hbad := h1 d hd
          rw [hn] at hbad
          simpa [nlWsBad] using hbad
        rw [ih1 hhd, hn]
      · rw [if_neg hn, ih0]
    · intro hhd
      have hc := hhd c rfl
      have hn : ¬ c = '\n' := by
        intro he
        rw [he] at hc
        simp [isPySpace] at hc
      rw [cbGo_one_cons, if_neg hn, if_neg (by simp [hc]), ih0]
      rfl

theorem collapseBlank_id (l : List Char) (h : pairOk nlWsBad l = true) :
    collapseBlank l = l := (cbGo_id l h).1

/-! ### The passes produce and preserve space-run-free text -/

theorem collapseSpaces_head : ∀ l : List Char, (collapseSpaces l).head? = l.head? := by
  intro l
  induction l with
  | nil => rfl
  | cons a t ih =>
    cases t with
    | nil => rfl
    | cons b r =>
      rw [collapseSpaces_cons2]
      by_cases hc : a = ' ' ∧ b = ' '
      · rw [if_pos hc, ih]
        simp [hc.1, hc.2]
      · rw [if_neg hc]
        rfl

theorem collapseSpaces_pairOk : ∀ l : List Char, pairOk ndsBad (collapseSpaces l) = true := by
  intro l
  induction l with
  | nil => rfl
  | cons a t ih =>
    cases t with
    | nil => rfl
    | cons b r =>
      rw [collapseSpaces_cons2]
      by_cases hc : a = ' ' ∧ b = ' '
      · rw [if_pos hc]
        exact ih
      · rw [if_neg hc, pairOk_cons_head? ndsBad a (collapseSpaces (b :: r))]
        refine ⟨?_, ih⟩
        intro d hd
        rw [collapseSpaces_head, List.head?_cons, Option.some.injEq] at hd
        subst hd
        exact (ndsBad_eq_false a b).mpr hc

theorem sanGo_false_head (l : List Char) : (sanGo false l).head? = l.head? := by
  cases l with
  | nil => rfl
  | cons c rest =>
    rw [sanGo_cons]
    by_cases hc : c = ' '
    · rw [if_pos hc, if_neg Bool.false_ne_true, hc]
      rfl
    · rw [if_neg hc]
      by_cases hn : c = '\n'
      · rw [if_pos hn, hn]
        rfl
      · rw [if_neg hn]
        rfl

theorem sanGo_pairOk : ∀ (l : List Char) (mode : Bool), pairOk ndsBad l = true →
    pairOk ndsBad (sanGo mode l) = true := by
  intro l
  induction l with
  | nil => intro mode _; cases mode <;> rfl
  | cons c rest ih =>
    intro mode h
    have h2 := pairOk_tail ndsBad c rest h
    have h1 := ((pairOk_cons_head? ndsBad c rest).mp h).1
    rw [sanGo_cons]
    by_cases hc : c = ' '
    · cases mode with
      | true =>
        rw [if_pos hc, if_pos rfl]
        exact ih true h2
      | false =>
        rw [if_pos hc, if_neg Bool.false_ne_true,
          pairOk_cons_head? ndsBad ' ' (sanGo false rest)]
        refine ⟨?_, ih false h2⟩
        intro d hd
        rw [sanGo_false_head] at hd
        have hbad := h1 d hd
        rw [hc] at hbad
        exact hbad
    · rw [if_neg hc]
      by_cases hn : c = '\n'
      · rw [if_pos hn, pairOk_cons_head? ndsBad '\n' (sanGo true rest)]
        refine ⟨?_, ih true h2⟩
        intro d _
        exact (ndsBad_eq_false '\n' d).mpr (fun hx => absurd hx.1 (by decide))
      · rw [if_neg hn, pairOk_cons_head? ndsBad c (sanGo false rest)]
        refine ⟨?_, ih false h2⟩
        intro d _
        exact (ndsBad_eq_false c d).mpr (fun hx => hc hx.1)

/-! ### `splitNl` and `joinLines` -/

theorem splitNl_cons (c : Char) (rest : List Char) :
    splitNl (c :: rest) =
      if c = '\n' then [] :: splitNl rest
      else match splitNl rest with
        | h :: t => (c :: h) :: t
        | [] => [[c]] := rfl

theorem splitNl_single : ∀ l : List Char, ¬ '\n' ∈ l → splitNl l = [l] := by
  intro l
  induction l with
  | nil => intro _; rfl
  | cons c rest ih =>
    intro h
    have hc : ¬ c = '\n' := fun he => h (by subst he; exact List.mem_cons_self _ _)
    have hrest : ¬ '\n' ∈ rest := fun hm => h (List.mem_cons_of_mem _ hm)
    rw [splitNl_cons, if_neg hc, ih hrest]

theorem splitNl_append : ∀ (a rest : List Char), ¬ '\n' ∈ a →
    splitNl (a ++ '\n' :: rest) = a :: splitNl rest := by
  intro a
  induction a with
  | nil =>
    intro rest _
    show splitNl ('\n' :: rest) = [] :: splitNl rest
    rw [splitNl_cons, if_pos rfl]
  | cons c a' ih =>
    intro rest h
    have hc : ¬ c = '\n' := fun he => h (by subst he; exact List.mem_cons_self _ _)
    have ha' : ¬ '\n' ∈ a' := fun hm => h (List.mem_cons_of_mem _ hm)
    show splitNl (c :: (a' ++ '\n' :: rest)) = (c :: a') :: splitNl rest
    rw [splitNl_cons, if_neg hc, ih rest ha']

theorem joinLines_cons2 (l l2 : List Char) (t : List (List Char)) :
    joinLines (l :: l2 :: t) = l ++ '\n' :: joinLines (l2 :: t) := rfl

theorem splitNl_joinLines : ∀ ls : List (List Char), ls ≠ [] →
    (∀ p ∈ ls, ¬ '\n' ∈ p) → splitNl (joinLines ls) = ls := by
  intro ls
  induction ls with
  | nil => intro h _; exact absurd rfl h
  | cons l t ih =>
    intro _ hp
    cases t with
    | nil =>
      show splitNl l = [l]
      exact splitNl_single l (hp l (List.mem_cons_self _ _))
    | cons l2 t2 =>
      rw [joinLines_cons2, splitNl_append l _ (hp l (List.mem_cons_self _ _)),
        ih (by simp) (fun p hm => hp p (List.mem_cons_of_mem _ hm))]

theorem splitNl_no_nl : ∀ (l : List Char) (p : List Char), p ∈ splitNl l → ¬ '\n' ∈ p := by
  intro l
  induction l with
  | nil =>
    intro p hp
    simp [splitNl] at hp
    subst hp
    simp
  | cons c rest ih =>
    intro p hp
    rw [splitNl_cons] at hp
    by_cases hc : c = '\n'
    · rw [if_pos hc] at hp
      rcases List.mem_cons.mp hp with h | h
      · subst h; simp
      · exact ih p h
    · rw [if_neg hc] at hp
      cases hs : splitNl rest with
      | nil =>
        rw [hs] at hp
        have hp' : p ∈ [[c]] := hp
        simp at hp'
        subst hp'
        intro hm
        simp at hm
        exact hc hm.symm
      | cons h0 t0 =>
        rw [hs] at hp
        have hp' : p ∈ (c :: h0) :: t0 := hp
        rcases List.mem_cons.mp hp' with h | h
        · subst h
          intro hm
          rcases List.mem_cons.mp hm with h' | h'
          · exact hc h'.symm
          · exact ih h0 (by rw [hs]; exact List.mem_cons_self _ _) h'
        · exact ih p (by rw [hs]; exact List.mem_cons_of_mem _ h)

theorem splitNl_parts : ∀ l : List Char,
    (∀ p ∈ splitNl l, p <:+: l) ∧ (∀ h t, splitNl l = h :: t → h <+: l) := by
  intro l
  induction l with
  | nil =>
    constructor
    · intro p hp
      simp [splitNl] at hp
      subst hp
      exact List.nil_infix
    · intro h t he
      have he' : [([] : List Char)] = h :: t := he
      injection he' with h1 _
      rw [← h1]
  | cons c rest ih =>
    obtain ⟨ihM, ihH⟩ := ih
    by_cases hc : c = '\n'
    · constructor
      · intro p hp
        rw [splitNl_cons, if_pos hc] at hp
        rcases List.mem_cons.mp hp with h | h
        · subst h
          exact List.nil_infix
        · exact List.infix_cons (ihM p h)
      · intro h t he
        rw [splitNl_cons, if_pos hc] at he
        injection he with h1 _
        rw [← h1]
        exact List.nil_prefix
    · cases hs : splitNl rest with
      | nil =>
        constructor
        · intro p hp
          rw [splitNl_cons, if_neg hc, hs] at hp
          have hp' : p ∈ [[c]] := hp
          simp at hp'
          subst hp'
          exact ⟨[], rest, rfl⟩
        · intro h t he
          rw [splitNl_cons, if_neg hc, hs] at he
          have he' : [[c]] = h :: t := he
          injection he' with h1 _
          rw [← h1]
          exact ⟨rest, rfl⟩
      | cons h0 t0 =>
        have hh0 : h0 <+: rest := ihH h0 t0 hs
        constructor
        · intro p hp
          rw [splitNl_cons, if_neg hc, hs] at hp
          have hp' : p ∈ (c :: h0) :: t0 := hp
          rcases List.mem_cons.mp hp' with h | h
          · subst h
            exact (List.cons_prefix_cons.mpr ⟨rfl, hh0⟩).isInfix
          · exact List.infix_cons (ihM p (by rw [hs]; exact List.mem_cons_of_mem _ h))
        · intro h t he
          rw [splitNl_cons, if_neg hc, hs] at he
          have he' : (c :: h0) :: t0 = h :: t := he
          injection he' with h1 _
          rw [← h1]
          exact List.cons_prefix_cons.mpr ⟨rfl, hh0⟩

theorem joinLines_head (l : List Char) (t : List (List Char)) (hl : l ≠ []) :
    (joinLines (l :: t)).head? = l.head? := by
  cases t with
  | nil => rfl
  | cons l2 t2 =>
    rw [joinLines_cons2]
    cases l with
    | nil => exact absurd rfl hl
    | cons a m => rfl

/-! ### Joined normalized lines are free of all three trigger pairs -/

theorem pairOk_joinLines_ndsBad : ∀ ls : List (List Char),
    (∀ l ∈ ls, pairOk ndsBad l = true) → pairOk ndsBad (joinLines ls) = true := by
  intro ls
  induction ls with
  | nil => intro _; rfl
  | cons l t ih =>
    intro h
    cases t with
    | nil => exact h l (List.mem_cons_self _ _)
    | cons l2 t2 =>
      rw [joinLines_cons2]
      apply pairOk_append_intro
      · exact h l (List.mem_cons_self _ _)
      · rw [pairOk_cons_head? ndsBad '\n' (joinLines (l2 :: t2))]
        refine ⟨?_, ih (fun p hp => h p (List.mem_cons_of_mem _ hp))⟩
        intro d _
        exact (ndsBad_eq_false '\n' d).mpr (fun hx => absurd hx.1 (by decide))
      · intro a b _ hb
        rw [List.head?_cons, Option.some.injEq] at hb
        rw [← hb]
        exact (ndsBad_eq_false a '\n').mpr (fun hx => absurd hx.2 (by decide))

theorem pairOk_joinLines_nlWsBad : ∀ ls : List (List Char),
    (∀ l ∈ ls, l ≠ [] ∧ stripList l = l ∧ ¬ '\n' ∈ l) →
    pairOk nlWsBad (joinLines ls) = true := by
  intro ls
  induction ls with
  | nil => intro _; rfl
  | cons l t ih =>
    intro h
    have hl := h l (List.mem_cons_self _ _)
    have hlOk : pairOk nlWsBad l = true :=
      pairOk_of_fst_safe nlWsBad l (fun a ha b => by
        have hna : ¬ a = '\n' := fun he => hl.2.2 (he ▸ ha)
        simp [nlWsBad, hna])
    cases t with
    | nil => exact hlOk
    | cons l2 t2 =>
      rw [joinLines_cons2]
      apply pairOk_append_intro
      · exact hlOk
      · rw [pairOk_cons_head? nlWsBad '\n' (joinLines (l2 :: t2))]
        have hl2 := h l2 (List.mem_cons_of_mem _ (List.mem_cons_self _ _))
        refine ⟨?_, ih (fun p hp => h p (List.mem_cons_of_mem _ hp))⟩
        intro d hd
        rw [joinLines_head l2 t2 hl2.1] at hd
        have hdns : isPySpace d = false := by
          apply stripList_head_false l2 d
          rw [hl2.2.1]
          exact hd
        simp [nlWsBad, hdns]
      · intro a b ha hb
        rw [List.head?_cons, Option.some.injEq] at hb
        have haMem : a ∈ l := List.mem_of_mem_getLast? ha
        have hna : ¬ a = '\n' := fun he => hl.2.2 (he ▸ haMem)
        rw [← hb]
        simp [nlWsBad, hna]

theorem nlSpBad_le_nlWsBad : ∀ a b, nlSpBad a b = true → nlWsBad a b = true := by
  intro a b h
  simp [nlSpBad] at h
  simp [nlWsBad, h.1, h.2, isPySpace]

/-! ### The length filter on already-normalized lines -/

theorem filter_map_strip : ∀ ls : List (List Char),
    (∀ l ∈ ls, stripList l = l) →
    ((ls.filter (fun x => decide (20 < (stripList x).length))).map stripList)
      = ls.filter (fun l => decide (20 < l.length)) := by
  intro ls
  induction ls with
  | nil => intro _; rfl
  | cons a t ih =>
    intro h
    have ha : stripList a = a := h a (List.mem_cons_self _ _)
    have ht := ih (fun l hl => h l (List.mem_cons_of_mem _ hl))
    simp only [List.filter_cons, ha]
    by_cases h20 : 20 < a.length
    · rw [if_pos (by simpa using h20), if_pos (by simpa using h20), List.map_cons, ha, ht]
    · rw [if_neg (by simpa using h20), if_neg (by simpa using h20), ht]

theorem cleanContent_lines : ∀ ls : List (List Char),
    (∀ l ∈ ls, l ≠ [] ∧ stripList l = l ∧ ¬ '\n' ∈ l ∧ pairOk ndsBad l = true) →
    cleanContent (joinLines ls)
      = joinLines (ls.filter (fun l => decide (20 < l.length))) := by
  intro ls h
  cases ls with
  | nil => decide
  | cons l0 t0 =>
    have hprops : ∀ l ∈ l0 :: t0, l ≠ [] ∧ stripList l = l ∧ ¬ '\n' ∈ l :=
      fun l hl => ⟨(h l hl).1, (h l hl).2.1, (h l hl).2.2.1⟩
    have hnlws : pairOk nlWsBad (joinLines (l0 :: t0)) = true :=
      pairOk_joinLines_nlWsBad _ hprops
    have hnds : pairOk ndsBad (joinLines (l0 :: t0)) = true :=
      pairOk_joinLines_ndsBad _ (fun l hl => (h l hl).2.2.2)
    have hnlsp : pairOk nlSpBad (joinLines (l0 :: t0)) = true :=
      pairOk_mono nlWsBad nlSpBad nlSpBad_le_nlWsBad _ hnlws
    have hcb := collapseBlank_id _ hnlws
    have hcs := collapseSpaces_id _ hnds
    have hsa : stripAfterNl (joinLines (l0 :: t0)) = joinLines (l0 :: t0) :=
      sanGo_id (joinLines (l0 :: t0)) false hnlsp (fun hf => absurd hf Bool.false_ne_true)
    show joinLines (((splitNl (stripAfterNl (collapseSpaces (collapseBlank
          (joinLines (l0 :: t0)))))).filter
        (fun x => decide (20 < (stripList x).length))).map stripList)
      = joinLines ((l0 :: t0).filter (fun l => decide (20 < l.length)))
    rw [hcb, hcs, hsa,
      splitNl_joinLines (l0 :: t0) (by simp) (fun p hp => (hprops p hp).2.2),
      filter_map_strip (l0 :: t0) (fun l hl => (hprops l hl).2.1)]

/-! ### The cleanup block is idempotent -/

theorem cleanContent_c3_pairOk (l : List Char) :
    pairOk ndsBad (stripAfterNl (collapseSpaces (collapseBlank l))) = true :=
  sanGo_pairOk (collapseSpaces (collapseBlank l)) false
    (collapseSpaces_pairOk (collapseBlank l))

theorem cleanContent_out_props (l : List Char) :
    ∀ p ∈ ((splitNl (stripAfterNl (collapseSpaces (collapseBlank l)))).filter
        (fun x => decide (20 < (stripList x).length))).map stripList,
      p ≠ [] ∧ stripList p = p ∧ ¬ '\n' ∈ p ∧ pairOk ndsBad p = true := by
  intro p hp
  rw [List.mem_map] at hp
  obtain ⟨y, hy, hpy⟩ := hp
  rw [List.mem_filter] at hy
  obtain ⟨hyMem, hyLen⟩ := hy
  have hstrip : stripList y <:+: y := stripList_infix y
  have hyNoNl : ¬ '\n' ∈ y := splitNl_no_nl _ y hyMem
  have hyInfix : y <:+: stripAfterNl (collapseSpaces (collapseBlank l)) :=
    (splitNl_parts _).1 y hyMem
  have hyNds : pairOk ndsBad y = true :=
    pairOk_infix ndsBad _ y (cleanContent_c3_pairOk l) hyInfix
  subst hpy
  refine ⟨?_, stripList_idem y, ?_, ?_⟩
  · intro he
    rw [he] at hyLen
    simp at hyLen
  · intro hm
    exact hyNoNl (hstrip.sublist.mem hm)
  · exact pairOk_infix ndsBad y (stripList y) hyNds hstrip

theorem cleanContent_idem (l : List Char) :
    cleanContent (cleanContent l) = cleanContent l := by
  have hl : cleanContent l = joinLines (((splitNl (stripAfterNl (collapseSpaces
      (collapseBlank l)))).filter
        (fun x => decide (20 < (stripList x).length))).map stripList) := rfl
  rw [hl, cleanContent_lines _ (cleanContent_out_props l)]
  congr 1
  apply List.filter_eq_self.mpr
  intro p hp
  rw [List.mem_map] at hp
  obtain ⟨y, hy, hpy⟩ := hp
  rw [List.mem_filter] at hy
  subst hpy
  exact hy.2

theorem clean_content_idem (s : String) :
    clean_content (clean_content s) = clean_content s := by
  show (⟨cleanContent (clean_content s).data⟩ : String) = ⟨cleanContent s.data⟩
  have hd : (clean_content s).data = cleanContent s.data := rfl
  rw [hd, cleanContent_idem]

theorem selLoop_none (d : ContentDoc) (hd : ∀ sel, d.select1Text sel = none) :
    ∀ sels acc, selLoop d sels acc = acc := by
  intro sels
  induction sels with
  | nil => intro acc; rfl
  | cons s t ih =>
    intro acc
    simp only [selLoop, hd s]
    exact ih acc

theorem extract_article_content_shape (d : ContentDoc) :
    extract_article_content (some d) = ("") ∨
      ∃ c, extract_article_content (some d) = clean_content c := by
  have key : ∀ x : String, (if x = ("") then x else clean_content x) = ("") ∨
      ∃ c, (if x = ("") then x else clean_content x) = clean_content c := by
    intro x
    by_cases hx : x = ("")
    · left
      rw [if_pos hx, hx]
    · right
      exact ⟨x, if_neg hx⟩
  exact key _

/-- C6: running the Content Extractor on text that is already the output of
a previous extraction returns that same text unchanged.  The re-extraction
presents the previous output as the page's body text (the selector cascade
finds nothing); the first extraction is over an arbitrary document, and its
output is either empty or a `clean_content` image, on which the cleanup
block (blank-line collapse, space collapse, post-newline space strip, short
stripped-line filter) is a fixed point. -/
theorem C6_extraction_idempotent (d : ContentDoc) :
    extract_article_content (some (bodyOnlyDoc (extract_article_content (some d))))
      = extract_article_content (some d) := by
  have hbody : ∀ s : String, extract_article_content (some (bodyOnlyDoc s))
      = (if s = ("") then s else clean_content s) := fun s => rfl
  rcases extract_article_content_shape d with h0 | ⟨c, hc⟩
  · rw [h0, hbody, if_pos rfl]
  · rw [hc, hbody]
    by_cases hcc : clean_content c = ("")
    · rw [if_pos hcc]
    · rw [if_neg hcc, clean_content_idem]

/-- C9 (counterexample): the spec says every line of 20 or more characters
(after stripping) is kept by the normalization, but a line of exactly 20
characters is dropped: the code keeps a line only when its stripped length
is strictly greater than 20. -/
theorem C9_counterexample :
    strLen ("aaaaaaaaaaaaaaaaaaaa") = 20 ∧
      clean_content ("aaaaaaaaaaaaaaaaaaaa") = ("") := by decide

/-- C9 (amended): on text made of already-normalized lines (each nonempty,
stripped, newline-free and free of space runs), the cleanup block keeps
exactly the lines whose (stripped) length is strictly greater than 20
characters and drops the rest, including lines of exactly 20 characters. -/
theorem C9_line_filter (ls : List (List Char))
    (h : ∀ l ∈ ls, l ≠ [] ∧ stripList l = l ∧ ¬ '\n' ∈ l ∧ pairOk ndsBad l = true) :
    cleanContent (joinLines ls)
      = joinLines (ls.filter (fun l => decide (20 < l.length))) :=
  cleanContent_lines ls h

/-- Concrete line list for the C9 witness: a 25-character line (kept) and a
2-character line (dropped). -/
def c9wLines : List (List Char) :=
  [("aaaaaaaaaaaaaaaaaaaaaaaaa").data, ("bb").data]

/-- C9 witness: the amended line-filter theorem instantiated on `c9wLines`. -/
theorem C9_line_filter_witness :
    (∀ l ∈ c9wLines, l ≠ [] ∧ stripList l = l ∧ ¬ '\n' ∈ l ∧ pairOk ndsBad l = true) ∧
      cleanContent (joinLines c9wLines)
        = joinLines (c9wLines.filter (fun l => decide (20 < l.length))) :=
  ⟨by decide, C9_line_filter c9wLines (by decide)⟩
